import Mathlib

/-!
Verification development for `tools/bookbuilder/bookbuilder.py`.

The Python program converts a directory of saved reader-view HTML pages into
an EPUB package and/or a flattened HTML document rendered to PDF.  This file
gives a shallow embedding of the content-recovery pipeline: the DOM is
modelled by an inductive tree (`Node`), BeautifulSoup operations become
recursive tree functions, the regular expressions of the source become
explicit character-list matchers, and the per-file loop of `build_book`
becomes a fold over a list of pages threading explicit state.

Conventions:
* Strings are Lean `String`s (lists of unicode characters), matching Python
  `str`; `len` on a Python string corresponds to `String.length`.
* Network and translation I/O are oracles passed in as functions.
* Re-parsing a serialized fragment (BeautifulSoup / lxml round trips in the
  source) is modelled as the identity on the tree it serializes, which is
  faithful for the well-formed markup the pipeline itself produces.
-/

/-! ## Character and string utilities (ASCII-level models of Python str ops) -/

/-- Python `str.strip()` whitespace (the characters relevant to this code). -/
def isWs (c : Char) : Bool :=
  c = ' ' || c = '\t' || c = '\n' || c = '\r' || c = '\x0b' || c = '\x0c'

/-- ASCII lower-casing, modelling `str.lower()` on the ASCII inputs involved. -/
def lowerChar (c : Char) : Char :=
  if 'A' ≤ c && c ≤ 'Z' then Char.ofNat (c.toNat + 32) else c

def lowerL (cs : List Char) : List Char := cs.map lowerChar

def lowerS (s : String) : String := ⟨lowerL s.data⟩

/-- Python `\w`: ASCII word character (the inputs here are ASCII). -/
def isWordChar (c : Char) : Bool :=
  ('a' ≤ c && c ≤ 'z') || ('A' ≤ c && c ≤ 'Z') || ('0' ≤ c && c ≤ '9') || c = '_'

def isDigitC (c : Char) : Bool := '0' ≤ c && c ≤ '9'

def trimLeftL : List Char → List Char
  | [] => []
  | c :: cs => if isWs c then trimLeftL cs else c :: cs

def trimL (cs : List Char) : List Char :=
  (trimLeftL ((trimLeftL cs.reverse).reverse))

/-- Python `str.strip()`. -/
def strip (s : String) : String := ⟨trimL s.data⟩

/-- `sub` occurs as a prefix of `hay` (exact characters). -/
def isPrefixL : List Char → List Char → Bool
  | [], _ => true
  | _ :: _, [] => false
  | p :: ps, c :: cs => p = c && isPrefixL ps cs

/-- Python `sub in hay` (substring containment). -/
def containsL (hay sub : List Char) : Bool :=
  match hay with
  | [] => isPrefixL sub []
  | _ :: rest => isPrefixL sub hay || containsL rest sub

def containsS (hay sub : String) : Bool := containsL hay.data sub.data

def startsWithS (s pre0 : String) : Bool := isPrefixL pre0.data s.data

/-- Python `s.split(sep, 1)[0]`: everything before the first occurrence of
the character `sep` (the whole string when absent). -/
def takeBeforeC (sep : Char) : List Char → List Char
  | [] => []
  | c :: cs => if c = sep then [] else c :: takeBeforeC sep cs

/-- Python `s.split(sep, 1)[1]`: everything after the first occurrence of the
character `sep`, `none` when `sep` does not occur. -/
def dropAfterC (sep : Char) : List Char → Option (List Char)
  | [] => none
  | c :: cs => if c = sep then some cs else dropAfterC sep cs

inductive Node where
  | text (s : String) : Node
  | elem (tag : String) (attrs : List (String × String)) (mainFlag : Bool)
      (children : List Node) : Node

/-- Plain element constructor (mark unset). -/
def el (tag : String) (attrs : List (String × String)) (cs : List Node) : Node :=
  .elem tag attrs false cs

/-- Plain text node. -/
def tx (s : String) : Node := .text s

mutual
def nsize : Node → Nat
  | .text _ => 1
  | .elem _ _ _ cs => 1 + nsizeL cs
def nsizeL : List Node → Nat
  | [] => 0
  | c :: cs => nsize c + nsizeL cs
end

/-- `tag.get(name)`: first value bound to an attribute name. -/
def getAttr (name : String) : Node → Option String
  | .text _ => none
  | .elem _ attrs _ _ => (attrs.find? (fun p => p.1 = name)).map Prod.snd

def tagOf : Node → Option String
  | .text _ => none
  | .elem t _ _ _ => some t

mutual
/-- All NavigableStrings of the subtree, in document order (self included). -/
def nodeTexts : Node → List String
  | .text s => [s]
  | .elem _ _ _ cs => nodeTextsL cs
def nodeTextsL : List Node → List String
  | [] => []
  | c :: cs => nodeTexts c ++ nodeTextsL cs
end

/-- BeautifulSoup `get_text(" ", strip=True)`: strip every string, drop the
empty ones, join with a single space. -/
def getTextSp (n : Node) : String :=
  String.intercalate " " (((nodeTexts n).map strip).filter (fun s => s ≠ ""))

def getTextSpL (cs : List Node) : String :=
  String.intercalate " " (((nodeTextsL cs).map strip).filter (fun s => s ≠ ""))

/-- BeautifulSoup `get_text(strip=True)` is empty iff every string is blank. -/
def allBlank (n : Node) : Bool :=
  ((nodeTexts n).map strip).all (fun s => s = "")

mutual
/-- Number of descendant elements with the given tag (`len(x.find_all(t))`,
which searches proper descendants only). -/
def countTag (t : String) : Node → Nat
  | .text _ => 0
  | .elem _ _ _ cs => countTagL t cs
def countTagL (t : String) : List Node → Nat
  | [] => 0
  | c :: cs => countTagTop t c + countTagL t cs
def countTagTop (t : String) : Node → Nat
  | .text _ => 0
  | .elem tg _ _ cs => (if tg = t then 1 else 0) + countTagL t cs
end

/-- `x.find(t) is not None`: some proper descendant element has tag `t`. -/
def hasTag (t : String) (n : Node) : Bool := countTag t n ≠ 0

/-- Subtree (self included) contains an element with tag `t`. -/
def hasTagSelf (t : String) (n : Node) : Bool := countTagTop t n ≠ 0

mutual
/-- Does the subtree contain the main-content mark (self included)?  Models
`el is main_root or main_root in el.descendants`. -/
def holdsMain : Node → Bool
  | .text _ => false
  | .elem _ _ m cs => m || holdsMainL cs
def holdsMainL : List Node → Bool
  | [] => false
  | c :: cs => holdsMain c || holdsMainL cs
end

/-! ## Serialization (`str(tag)` in BeautifulSoup, minimal formatter) -/

def escTextL : List Char → List Char
  | [] => []
  | c :: cs =>
    (if c = '&' then "&amp;".data
     else if c = '<' then "&lt;".data
     else if c = '>' then "&gt;".data
     else [c]) ++ escTextL cs

def escText (s : String) : String := ⟨escTextL s.data⟩

def serializeAttrs (attrs : List (String × String)) : String :=
  String.join (attrs.map (fun p => " " ++ p.1 ++ "=\"" ++ escText p.2 ++ "\""))

mutual
def serialize : Node → String
  | .text s => escText s
  | .elem t attrs _ cs =>
      "<" ++ t ++ serializeAttrs attrs ++ ">" ++ serializeL cs ++ "</" ++ t ++ ">"
def serializeL : List Node → String
  | [] => ""
  | c :: cs => serialize c ++ serializeL cs
end

/-! ## Regular-expression models

The source uses a handful of fixed regular expressions; each is modelled by
an explicit matcher over lowered character lists.  `Pat` is a tiny pattern
language covering exactly the constructs those expressions use. -/

inductive Pat where
  | lit (s : String)
  | ws1
  | wsAny
  | bdry
  | digits1
  | restOfLine

/-- Match a literal (already lowercase) against an exact suffix. -/
def litM : List Char → List Char → Option (List Char)
  | [], cs => some cs
  | _ :: _, [] => none
  | l :: ls, c :: cs => if l = c then litM ls cs else none

/-- Case-insensitive literal match (literal given lowercase). -/
def litMI : List Char → List Char → Option (List Char)
  | [], cs => some cs
  | _ :: _, [] => none
  | l :: ls, c :: cs => if l = lowerChar c then litMI ls cs else none

def isWordOpt : Option Char → Bool
  | none => false
  | some c => isWordChar c

def lastCharOf (s : String) (prev : Option Char) : Option Char :=
  match s.data.reverse with
  | [] => prev
  | c :: _ => some c

/-- Matcher for `Pat` sequences, tracking the previous character for `\b`.
Greedy semantics for `\s+`, `\s*`, `\d+` and `[^\n]*`, which coincides with
backtracking semantics for the fixed patterns used in the source (each such
item is followed by a literal that cannot begin with a character the greedy
step consumed). -/
def matchPats : List Pat → Option Char → List Char → Option (List Char)
  | [], _, cs => some cs
  | .lit s :: ps, prev, cs =>
      match litM s.data cs with
      | some rest => matchPats ps (lastCharOf s prev) rest
      | none => none
  | .ws1 :: ps, _, cs =>
      match cs with
      | c :: rest => if isWs c then matchPats ps (some ' ') (trimLeftL rest) else none
      | [] => none
  | .wsAny :: ps, _, cs =>
      matchPats ps (some ' ') (trimLeftL cs)
  | .bdry :: ps, prev, cs =>
      let nextWord := match cs with | [] => false | c :: _ => isWordChar c
      if xor (isWordOpt prev) nextWord then matchPats ps prev cs else none
  | .digits1 :: ps, _, cs =>
      match cs with
      | c :: rest =>
          if isDigitC c then matchPats ps (some '0') (rest.dropWhile isDigitC) else none
      | [] => none
  | .restOfLine :: ps, prev, cs =>
      matchPats ps prev (cs.dropWhile (fun c => c ≠ '\n'))

/-- `re.search`: try the pattern at every position, tracking the preceding
character for word boundaries.  The input is already lowered. -/
def searchPats (ps : List Pat) : Option Char → List Char → Bool
  | prev, [] => (matchPats ps prev []).isSome
  | prev, c :: cs => (matchPats ps prev (c :: cs)).isSome || searchPats ps (some c) cs

/-- One noise phrase of `noise_phrases` (bookbuilder.py lines 255-275):
`anchored` marks the two patterns beginning with `^`. -/
structure NoisePat where
  anchored : Bool
  pats : List Pat

def noisePhrases : List NoisePat :=
  [ ⟨true,  [.wsAny, .lit "currently", .ws1, .lit "reading", .bdry]⟩
  , ⟨false, [.bdry, .lit "dismiss", .ws1, .lit "message", .bdry]⟩
  , ⟨false, [.bdry, .lit "enjoying", .ws1, .lit "this", .ws1, .lit "book?", .bdry]⟩
  , ⟨false, [.bdry, .lit "previous", .ws1, .lit "page", .bdry]⟩
  , ⟨false, [.bdry, .lit "next", .ws1, .lit "page", .bdry]⟩
  , ⟨false, [.bdry, .lit "you've", .ws1, .lit "reached", .ws1, .lit "the", .ws1,
             .lit "end", .bdry]⟩
  , ⟨false, [.bdry, .lit "leave", .ws1, .lit "a", .ws1, .lit "rating", .bdry]⟩
  , ⟨false, [.bdry, .lit "write", .ws1, .lit "a", .ws1, .lit "review", .bdry]⟩
  , ⟨false, [.bdry, .lit "this", .ws1, .lit "book", .ws1, .lit "failed", .ws1,
             .lit "to", .ws1, .lit "load", .bdry]⟩
  , ⟨false, [.bdry, .lit "something", .ws1, .lit "is", .ws1, .lit "not", .ws1,
             .lit "right", .bdry]⟩
  , ⟨false, [.bdry, .lit "book", .ws1, .lit "navigation", .bdry]⟩
  , ⟨false, [.bdry, .lit "page", .ws1, .digits1, .ws1, .lit "of", .ws1, .digits1, .bdry]⟩
  , ⟨false, [.bdry, .lit "%", .wsAny, .lit "read", .bdry]⟩
  , ⟨false, [.bdry, .lit "highlight", .bdry]⟩
  , ⟨false, [.bdry, .lit "delete", .bdry]⟩
  , ⟨false, [.bdry, .lit "add", .ws1, .lit "note", .bdry]⟩
  , ⟨false, [.bdry, .lit "share", .ws1, .lit "quote", .bdry]⟩
  , ⟨true,  [.wsAny, .lit "introduzione", .bdry]⟩
  , ⟨false, [.bdry, .lit "introduzione", .bdry]⟩ ]

/-- `noise_re.search(s)` for the big alternation (`re.I`): some phrase
matches somewhere (anchored phrases only at the start). -/
def noiseSearch (s : String) : Bool :=
  let cs := lowerL s.data
  noisePhrases.any (fun np =>
    if np.anchored then (matchPats np.pats none cs).isSome
    else searchPats np.pats none cs)

/-! ### `junk_re` (bookbuilder.py line 747)

`^(?:\s*(il\s+cammino\s+neocatecumenale[^\n]*|highlight|delete|add\s+note|
share\s+quote|introduzione)\s*)+$` under `re.I`.  No two alternatives can
match at the same position (their first letters differ), so first-match
iteration is exact. -/

def junkAlt (cs : List Char) : Option (List Char) :=
  match matchPats [.lit "il", .ws1, .lit "cammino", .ws1, .lit "neocatecumenale",
                   .restOfLine] none cs with
  | some r => some r
  | none =>
  match litM "highlight".data cs with
  | some r => some r
  | none =>
  match litM "delete".data cs with
  | some r => some r
  | none =>
  match matchPats [.lit "add", .ws1, .lit "note"] none cs with
  | some r => some r
  | none =>
  match matchPats [.lit "share", .ws1, .lit "quote"] none cs with
  | some r => some r
  | none => litM "introduzione".data cs

def junkGo : Nat → List Char → Bool
  | 0, _ => false
  | fuel + 1, cs =>
      match junkAlt cs with
      | none => false
      | some rest =>
          let r := trimLeftL rest
          r.isEmpty || junkGo fuel r

/-- `junk_re.match(plain) is not None`: the whole text is a `\s*`-separated
sequence of at least one noise token. -/
def junkMatch (s : String) : Bool :=
  let cs := trimLeftL (lowerL s.data)
  !cs.isEmpty && junkGo (cs.length + 1) cs

/-! ### `title_patterns` (bookbuilder.py lines 131-144)

Each pattern is removed from the raw page text by `re.sub(pattern, '', html,
flags=re.I)` before parsing.  A matcher returns the suffix left after a match
at the current position; `subAll` performs the global leftmost scan with an
empty replacement. -/

def subAll (pat : List Char → Option (List Char)) : Nat → List Char → List Char
  | 0, cs => cs
  | fuel + 1, cs =>
      match pat cs with
      | some rest => subAll pat fuel rest
      | none =>
          match cs with
          | [] => []
          | c :: cs' => c :: subAll pat fuel cs'

def digits1L : List Char → Option (List Char)
  | c :: rest => if isDigitC c then some (rest.dropWhile isDigitC) else none
  | [] => none

def optConsume (f : List Char → Option (List Char)) (cs : List Char) : List Char :=
  (f cs).getD cs

/-- Pattern 1: `Il Cammino Neocatecumenale_? Storia e pratica religiosa
\(Vol\. I\)(?:\.html)?(?: \(\d+\))?`. -/
def titlePat1 (cs : List Char) : Option (List Char) := do
  let r ← litMI "il cammino neocatecumenale".data cs
  let r := optConsume (litMI "_".data) r
  let r ← litMI " storia e pratica religiosa (vol. i)".data r
  let r := optConsume (litMI ".html".data) r
  let r := optConsume (fun l => do
    let l ← litMI " (".data l
    let l ← digits1L l
    litMI ")".data l) r
  pure r

/-- Pattern 5: `Vol\.? I`. -/
def titlePat5 (cs : List Char) : Option (List Char) := do
  let r ← litMI "vol".data cs
  let r := optConsume (litMI ".".data) r
  litMI " i".data r

/-- The ten `title_patterns` matchers, in source order. -/
def titlePatterns : List (List Char → Option (List Char)) :=
  [ titlePat1
  , litMI "il cammino neocatecumenale: storia e pratica religiosa (vol. i)".data
  , litMI "il cammino neocatecumenale".data
  , litMI "storia e pratica religiosa".data
  , titlePat5
  , litMI "highlightdelete add note share quote".data
  , litMI "highlight".data
  , litMI "delete".data
  , litMI "add note".data
  , litMI "share quote".data ]

/-- The sequence of `re.sub(pattern, '', text, flags=re.I)` calls applied to
the raw page text before parsing (bookbuilder.py lines 143-144).  In the
model it is applied to the document title and to each text node, which is
what the raw-string substitution amounts to for pages whose markup itself
does not spell a pattern. -/
def stripChromePatterns (s : String) : String :=
  ⟨titlePatterns.foldl (fun cs pat => subAll pat (cs.length + 1) cs) s.data⟩

/-! ## The chapter gate (`build_book`, lines 720-768)

The code computes a handful of scalar features of the embedded, cleaned body
and branches on them; `GateFeatures` holds exactly those locals. -/

structure GateFeatures where
  /-- `inner`: the serialized body contents, stripped. -/
  innerS : String
  /-- `plain`: `get_text(" ", strip=True)` of the re-parsed inner markup. -/
  plain : String
  /-- `has_img`. -/
  hasImg : Bool
  /-- `p_count`. -/
  pCount : Nat
  /-- `a_count`. -/
  aCount : Nat
  /-- the document `<title>` text (as it stands after the raw-text
  `title_patterns` removal), before lowering. -/
  docTitle : String

/-- Tag-mark search: `<(t1|t2|...)\b`, optionally allowing `\s*` after `<`
(the reshape regex uses `<\s*(...)`).  Input already lowered. -/
def tagMarkAt (tags : List String) (allowWs : Bool) (cs : List Char) : Bool :=
  match cs with
  | '<' :: rest =>
      let rest := if allowWs then trimLeftL rest else rest
      tags.any (fun t =>
        match litM t.data rest with
        | some [] => true
        | some (c :: _) => !isWordChar c
        | none => false)
  | _ => false

def searchTagMark (tags : List String) (allowWs : Bool) : List Char → Bool
  | [] => false
  | c :: cs => tagMarkAt tags allowWs (c :: cs) || searchTagMark tags allowWs cs

/-- Tag list of the `has_visible` regex (line 732). -/
def visTags : List String :=
  ["img", "p", "h1", "h2", "h3", "h4", "h5", "h6", "ul", "ol", "li", "a",
   "blockquote", "table"]

/-- Tag list of the reshape test regex (line 763); note it has `img` but not
`a`, and allows whitespace after `<`. -/
def reshapeTags : List String :=
  ["p", "h1", "h2", "h3", "h4", "h5", "h6", "ul", "ol", "li", "blockquote",
   "table", "img"]

/-- `has_visible` (line 732): a content-tag mark or any `\w` character. -/
def hasVisible (innerS : String) : Bool :=
  searchTagMark visTags false (lowerL innerS.data) || innerS.data.any isWordChar

/-- `forced_keep = len(plain) >= 200` (line 744). -/
def forcedKeep (f : GateFeatures) : Bool := 200 ≤ f.plain.length

/-- `looks_junk` (line 748). -/
def looksJunk (f : GateFeatures) : Bool :=
  !f.hasImg && f.plain.length < 240 && junkMatch f.plain

/-- `very_short` (line 750). -/
def veryShort (f : GateFeatures) : Bool :=
  !f.hasImg && f.plain.length < 160 && f.pCount == 0 && f.aCount ≤ 5

/-- `title_looks_chrome` (line 756). -/
def titleLooksChrome (f : GateFeatures) : Bool :=
  containsS (lowerS f.docTitle) "il cammino neocatecumenale"

/-- `body_too_small` (line 757). -/
def bodyTooSmall (f : GateFeatures) : Bool :=
  !f.hasImg && f.plain.length < 400 && f.pCount ≤ 1

/-- The skip decision of line 758: `not forced_keep and ((not inner or not
has_visible) or looks_junk or very_short or (title_looks_chrome and
body_too_small))`. -/
def gateSkips (f : GateFeatures) : Bool :=
  !forcedKeep f &&
    ((f.innerS == "" || !hasVisible f.innerS) || looksJunk f || veryShort f ||
      (titleLooksChrome f && bodyTooSmall f))

def childrenOf : Node → List Node
  | .text _ => []
  | .elem _ _ _ cs => cs

/-- The feature extraction of lines 721-757, given the document title and the
body element of the cleaned soup. -/
def featuresOf (docTitle : String) (body : Node) : GateFeatures :=
  let cs := childrenOf body
  { innerS := strip (serializeL cs)
  , plain := getTextSpL cs
  , hasImg := countTagL "img" cs != 0
  , pCount := countTagL "p" cs
  , aCount := countTagL "a" cs
  , docTitle := docTitle }

/-! ### Reshape (lines 762-768) and the markup-validity gate (lines 788-799) -/

/-- `re.split(r"\n\s*\n", s)`: at a newline whose following whitespace run
contains another newline, the match extends (greedily, then backtracking to
the last newline of the run), splitting the string there. -/
def splitBlankGo : Nat → List Char → List Char → List (List Char)
  | 0, acc, cs => [acc.reverse ++ cs]
  | _ + 1, acc, [] => [acc.reverse]
  | fuel + 1, acc, c :: cs =>
      if c = '\n' then
        let run := cs.takeWhile isWs
        match run.reverse.findIdx? (fun x => x = '\n') with
        | some kFromEnd =>
            let lastIdx := run.length - 1 - kFromEnd
            acc.reverse :: splitBlankGo fuel [] (cs.drop (lastIdx + 1))
        | none => splitBlankGo fuel (c :: acc) cs
      else splitBlankGo fuel (c :: acc) cs

def splitBlank (s : String) : List String :=
  (splitBlankGo (s.data.length + 1) [] s.data).map (fun cs => ⟨cs⟩)

/-- Reshape condition and result: when the body has no paragraph and no
block-level content tag, the plain text is split on blank lines and wrapped
into `<p>` elements (lines 762-768); `html_lib.escape` is the serializer's
escaping.  Returns the chapter content nodes. -/
def contentAfterReshape (f : GateFeatures) (cs : List Node) : List Node :=
  if f.pCount == 0 &&
      (!(f.innerS.data.contains '<') ||
        !searchTagMark reshapeTags true (lowerL f.innerS.data)) then
    let parts := ((splitBlank f.plain).map strip).filter (fun t => t ≠ "")
    let parts := if parts.isEmpty && strip f.plain ≠ "" then [strip f.plain] else parts
    parts.map (fun t => el "p" [] [tx t])
  else cs

/-- Content-element list of the lxml validity xpath (line 795); unlike
`visTags` it lacks `h4`, `h5`, `h6`. -/
def validityTags : List String :=
  ["p", "img", "h1", "h2", "h3", "ul", "ol", "li", "a", "blockquote", "table"]

/-- Character data before the first child element (`body_node.text` in lxml,
minus the template's leading newline which strips away). -/
def leadingText : List Node → String
  | [] => ""
  | .text s :: cs => s ++ leadingText cs
  | .elem _ _ _ _ :: _ => ""

/-- `is_valid` (lines 788-799): non-blank text before the first element, or
at least one content element anywhere in the body. -/
def chapterIsValid (cs : List Node) : Bool :=
  strip (leadingText cs) != "" || validityTags.any (fun t => countTagL t cs != 0)

/-! ## Base64 (`base64.b64decode` / `b64encode` on the byte lists involved) -/

def b64alphabet : List Char :=
  "ABCDEFGHIJKLMNOPQRSTUVWXYZabcdefghijklmnopqrstuvwxyz0123456789+/".data

def b64idxGo (c : Char) : List Char → Nat → Option Nat
  | [], _ => none
  | a :: as, i => if a = c then some i else b64idxGo c as (i + 1)

def b64idx (c : Char) : Option Nat := b64idxGo c b64alphabet 0

/-- `base64.b64decode` on well-formed input (groups of four alphabet
characters with standard final padding, `==` or `=` only as the final
group's tail); malformed input yields `none`, modelling the
`binascii.Error` the source catches. -/
def b64decodeL : List Char → Option (List Nat)
  | [] => some []
  | w :: x :: y :: z :: rest =>
      if y = '=' && z = '=' && rest.isEmpty then do
        let a ← b64idx w
        let b ← b64idx x
        pure [a * 4 + b / 16]
      else if z = '=' && rest.isEmpty then do
        let a ← b64idx w
        let b ← b64idx x
        let c ← b64idx y
        pure [a * 4 + b / 16, b % 16 * 16 + c / 4]
      else do
        let a ← b64idx w
        let b ← b64idx x
        let c ← b64idx y
        let d ← b64idx z
        let tail ← b64decodeL rest
        pure ((a * 4 + b / 16) :: (b % 16 * 16 + c / 4) :: (c % 4 * 64 + d) :: tail)
  | _ => none

def b64decode (s : String) : Option (List Nat) := b64decodeL s.data

/-! ## Asset embedding (`embed_images_and_rewrite`, lines 505-576) -/

/-- The epub item registered with `book.add_item` (file name, binary
content as a byte list, media type). -/
structure EpubItem where
  file_name : String
  content : List Nat
  media_type : String
deriving DecidableEq

/-- `header, b64data = src.split(",", 1); mime =
header.split(";")[0].split(":")[1]` — `none` models the exceptions the
source catches (no comma / no colon). -/
def parseDataUri (src : String) : Option (String × String) :=
  match dropAfterC ',' src.data with
  | none => none
  | some payload =>
      match dropAfterC ':' (takeBeforeC ';' (takeBeforeC ',' src.data)) with
      | none => none
      | some m => some (⟨takeBeforeC ':' m⟩, ⟨payload⟩)

/-- Extension choice for a data-URI mime (lines 531-542). -/
def extFromMime (mime : String) : String :=
  if containsS mime "/jpeg" || containsS mime "/jpg" then ".jpg"
  else if containsS mime "/png" then ".png"
  else if containsS mime "/gif" then ".gif"
  else if containsS mime "/webp" then ".webp"
  else if containsS mime "/svg" then ".svg"
  else ".bin"

/-- `Path(url).suffix` restricted to what `download_image` needs. -/
def urlSuffix (url : String) : String :=
  let name := (url.data.reverse.takeWhile (fun c => c ≠ '/')).reverse
  match name.reverse.findIdx? (fun c => c = '.') with
  | none => ""
  | some kFromEnd =>
      let pos := name.length - 1 - kFromEnd
      if pos = 0 then "" else
        let sfx : List Char := name.drop pos
        if sfx = ['.'] then "" else ⟨sfx⟩

/-- Extension from the response content type with URL-suffix fallback
(`download_image`, lines 485-499). -/
def extFromContentType (ct url : String) : String :=
  let ctl := lowerS ct
  if containsS ctl "jpeg" || containsS ctl "jpg" then ".jpg"
  else if containsS ctl "png" then ".png"
  else if containsS ctl "gif" then ".gif"
  else if containsS ctl "webp" then ".webp"
  else if containsS ctl "svg" then ".svg"
  else
    let sfx := urlSuffix url
    if [".jpg", ".jpeg", ".png", ".gif", ".webp", ".svg"].contains (lowerS sfx)
    then sfx else ".bin"

/-- `download_image(url, session)`: the network is an oracle from URL to
optional (bytes, content-type); any failure is `none` (the source catches
every exception and returns `(None, None)`). -/
def downloadImage (fetch : String → Option (List Nat × String)) (url : String) :
    Option (List Nat × String) :=
  match fetch url with
  | none => none
  | some (content, ct) => some (content, extFromContentType ct url)

/-- Media type from extension (lines 561-568). -/
def mediaFromExt (ext : String) : String :=
  let e := lowerS ext
  if e = ".jpg" then "image/jpeg"
  else if e = ".jpeg" then "image/jpeg"
  else if e = ".png" then "image/png"
  else if e = ".gif" then "image/gif"
  else if e = ".webp" then "image/webp"
  else if e = ".svg" then "image/svg+xml"
  else "application/octet-stream"

/-- Decimal rendering of the counters interpolated into the f-strings. -/
def digitChar (n : Nat) : Char := Char.ofNat (48 + n % 10)

def natToStrGo : Nat → Nat → List Char → List Char
  | 0, _, acc => acc
  | fuel + 1, n, acc =>
      if n < 10 then digitChar n :: acc
      else natToStrGo fuel (n / 10) (digitChar (n % 10) :: acc)

def natToStr (n : Nat) : String := ⟨natToStrGo (n + 1) n []⟩

/-- `int(s)` on attribute strings: optional sign and decimal digits; `none`
models the `ValueError` the source catches. -/
def parseIntOpt (s : String) : Option Int :=
  let cs := trimL s.data
  match cs with
  | '-' :: ds => if ds ≠ [] && ds.all isDigitC then
      some (-(Int.ofNat (digitsVal ds))) else none
  | ds => if ds ≠ [] && ds.all isDigitC then some (Int.ofNat (digitsVal ds)) else none
where
  digitsVal (ds : List Char) : Nat := ds.foldl (fun a c => a * 10 + (c.toNat - 48)) 0

/-- The tracking-pixel skip of lines 514-522: `width`/`height` present,
parsing, and ≤ 1 (a parse failure skips both checks). -/
def tinyDim (wOpt hOpt : Option String) : Bool :=
  let hCheck : Bool :=
    match hOpt with
    | none => false
    | some hv =>
        if hv = "" then false
        else match parseIntOpt hv with
             | none => false
             | some hi => hi ≤ 1
  match wOpt with
  | none => hCheck
  | some wv =>
      if wv = "" then hCheck
      else match parseIntOpt wv with
           | none => false
           | some wi => if wi ≤ 1 then true else hCheck

def setAttr (k v : String) (attrs : List (String × String)) :
    List (String × String) :=
  attrs.map (fun p => if p.1 = k then (k, v) else p)

/-- Embedder state: the running counter (`counter = 1` at function entry),
the items registered so far in this call, and the counter values consumed
(one per successfully embedded asset), recorded for the naming theorems. -/
structure EmbedSt where
  counter : Nat
  items : List EpubItem
  used : List Nat

/-- The per-`<img>` body of the `embed_images_and_rewrite` loop. -/
def processImg (fetch : String → Option (List Nat × String)) (pfx : String)
    (attrs : List (String × String)) (st : EmbedSt) :
    List (String × String) × EmbedSt :=
  match (attrs.find? (fun p => p.1 = "src")).map Prod.snd with
  | none => (attrs, st)
  | some src =>
    if src = "" then (attrs, st)
    else if tinyDim ((attrs.find? (fun p => p.1 = "width")).map Prod.snd)
                    ((attrs.find? (fun p => p.1 = "height")).map Prod.snd) then
      (attrs, st)
    else if startsWithS src "data:" then
      match parseDataUri src with
      | none => (attrs, st)
      | some (mime, payload) =>
          match b64decode payload with
          | none => (attrs, st)
          | some content =>
              let fname := pfx ++ natToStr st.counter ++ extFromMime mime
              let item : EpubItem := ⟨"images/" ++ fname, content, mime⟩
              (setAttr "src" ("images/" ++ fname) attrs,
               ⟨st.counter + 1, st.items ++ [item], st.used ++ [st.counter]⟩)
    else
      let dl := match downloadImage fetch src with
                | some r => some r
                | none =>
                    if startsWithS src "//" then downloadImage fetch ("https:" ++ src)
                    else none
      match dl with
      | none => (attrs, st)
      | some (content, ext) =>
          let fname := pfx ++ natToStr st.counter ++ ext
          let item : EpubItem := ⟨"images/" ++ fname, content, mediaFromExt ext⟩
          (setAttr "src" ("images/" ++ fname) attrs,
           ⟨st.counter + 1, st.items ++ [item], st.used ++ [st.counter]⟩)

mutual
def embedNode (fetch : String → Option (List Nat × String)) (pfx : String) :
    Node → EmbedSt → Node × EmbedSt
  | .text s, st => (.text s, st)
  | .elem t attrs m cs, st =>
      if t = "img" then
        let (attrs', st') := processImg fetch pfx attrs st
        let (cs', st'') := embedList fetch pfx cs st'
        (.elem t attrs' m cs', st'')
      else
        let (cs', st') := embedList fetch pfx cs st
        (.elem t attrs m cs', st')
def embedList (fetch : String → Option (List Nat × String)) (pfx : String) :
    List Node → EmbedSt → List Node × EmbedSt
  | [], st => ([], st)
  | c :: cs, st =>
      let (c', st') := embedNode fetch pfx c st
      let (cs', st'') := embedList fetch pfx cs st'
      (c' :: cs', st'')
end

/-- `embed_images_and_rewrite`: processes every `<img>` in document order
with a fresh local counter starting at 1; returns the rewritten tree, the
items registered in this call, and the consumed counter values. -/
def embedImagesAndRewrite (fetch : String → Option (List Nat × String))
    (pfx : String) (doc : Node) : Node × List EpubItem × List Nat :=
  let (doc', st) := embedNode fetch pfx doc ⟨1, [], []⟩
  (doc', st.items, st.used)

/-! ## Cover selection (`pick_cover_from_first_image`, lines 579-613) -/

mutual
/-- First `<img>` of the subtree, the root included. -/
def findImgSelf : Node → Option Node
  | .text _ => none
  | .elem t a m cs => if t = "img" then some (.elem t a m cs) else findImgL cs
def findImgL : List Node → Option Node
  | [] => none
  | c :: cs =>
      match findImgSelf c with
      | some r => some r
      | none => findImgL cs
end

/-- `soup.find("img")`: first descendant `<img>` in document order. -/
def findImg : Node → Option Node
  | .text _ => none
  | .elem _ _ _ cs => findImgL cs

/-- Media map of the cover path (lines 599-605): no `.svg` entry and an
`image/jpeg` default, unlike the embedder's map. -/
def coverMediaFromExt (ext : String) : String :=
  let e := lowerS ext
  if e = ".jpg" then "image/jpeg"
  else if e = ".jpeg" then "image/jpeg"
  else if e = ".png" then "image/png"
  else if e = ".gif" then "image/gif"
  else if e = ".webp" then "image/webp"
  else "image/jpeg"

/-- `pick_cover_from_first_image`: re-resolves the `src` of the first
`<img>` of the (already rewritten) soup — a data URI is decoded, anything
else is downloaded again; no protocol-relative retry here. -/
def pickCoverFromFirstImage (fetch : String → Option (List Nat × String))
    (doc : Node) : Option EpubItem :=
  match findImg doc with
  | none => none
  | some img =>
      match getAttr "src" img with
      | none => none
      | some src =>
          if src = "" then none
          else if startsWithS src "data:" then
            match parseDataUri src with
            | none => none
            | some (mime, payload) =>
                match b64decode payload with
                | none => none
                | some content => some ⟨"images/cover.jpg", content, mime⟩
          else
            match downloadImage fetch src with
            | none => none
            | some (content, ext) =>
                some ⟨"images/cover.jpg", content, coverMediaFromExt ext⟩

/-! ## Translation (`_translate_texts` / `translate_soup_in_place`, lines 31-97)

The adapter is an oracle from (attempt index, batch) to an optional result;
`translate_batch` is retried five times (`for attempt in range(5)`), and
exhaustion raises `RuntimeError`, which nothing in `build_book` catches. -/

def TrOracle : Type := Nat → List String → Option (List String)

/-- `_translate_texts` on the batch path: first success among attempts
0..4, else the fatal error. -/
def translateTexts (t : TrOracle) (texts : List String) : Option (List String) :=
  match t 0 texts with
  | some r => some r
  | none =>
  match t 1 texts with
  | some r => some r
  | none =>
  match t 2 texts with
  | some r => some r
  | none =>
  match t 3 texts with
  | some r => some r
  | none => t 4 texts

/-- Tag set scanned by `translate_soup_in_place`. -/
def translateTargets : List String :=
  ["h1", "h2", "h3", "h4", "h5", "h6", "p", "li", "blockquote", "figcaption",
   "caption", "span", "div"]

def allBlankL (cs : List Node) : Bool :=
  ((nodeTextsL cs).map strip).all (fun s => s = "")

mutual
/-- The texts collected by `translate_soup_in_place` (lines 75-85), in
document order: every target tag, skipping image-only tags, contributing
its `get_text(" ", strip=True)` when non-empty. -/
def collectTexts : Node → List String
  | .text _ => []
  | .elem t _ _ cs =>
      (if translateTargets.contains t then
        (if countTagL "img" cs ≠ 0 && allBlankL cs then []
         else
           let txt := getTextSpL cs
           if txt ≠ "" then [txt] else [])
       else []) ++ collectTextsL cs
def collectTextsL : List Node → List String
  | [] => []
  | c :: cs => collectTexts c ++ collectTextsL cs
end

mutual
/-- The write-back of lines 90-97: each collected tag's children are
replaced by the corresponding translated string; tags nested inside an
already-rewritten tag still consume their list position (BeautifulSoup
mutates detached nodes to no effect). -/
def applyTransN (tr : List String) : Node → Nat → Node × Nat
  | .text s, k => (.text s, k)
  | .elem t a m cs, k =>
      if translateTargets.contains t &&
         !(countTagL "img" cs ≠ 0 && allBlankL cs) && getTextSpL cs ≠ "" then
        let consumed := 1 + (collectTextsL cs).length
        (.elem t a m [.text (tr.getD k "")], k + consumed)
      else
        let (cs', k') := applyTransL tr cs k
        (.elem t a m cs', k')
def applyTransL (tr : List String) : List Node → Nat → List Node × Nat
  | [], k => ([], k)
  | c :: cs, k =>
      let (c', k') := applyTransN tr c k
      let (cs', k'') := applyTransL tr cs k'
      (c' :: cs', k'')
end

def translateSoupInPlace (tr : List String) (doc : Node) : Node :=
  (applyTransN tr doc 0).1

/-! ## The flattened-document reference pass (lines 868-940)

`html_for_pdf` is a string and the pass is a series of regex substitutions;
the model works on the occurrence lists those regexes act on: reference
attributes matched by `attr_pattern` (src, data, data-src, data-original,
data-lazy-src, href, xlink:href), CSS `url(...)` arguments, quoted `srcset`
attributes, and `<link ...>` tags. -/

def isElemNode : Node → Bool
  | .text _ => false
  | .elem _ _ _ _ => true

mutual
/-- Generic top-down removal: drop an element (with its subtree) whenever
the predicate holds of it, recursing into kept elements.  The root itself
is never a removal candidate (it models `body`). -/
def remIfN (p : Node → Bool) : Node → Node
  | .text s => .text s
  | .elem t a m cs => .elem t a m (remIfL p cs)
def remIfL (p : Node → Bool) : List Node → List Node
  | [] => []
  | c :: cs =>
      if isElemNode c && p c then remIfL p cs
      else remIfN p c :: remIfL p cs
end

mutual
/-- Pass: raw-text `title_patterns` removal (lines 131-144).  The source
applies `re.sub` to the whole raw HTML string before parsing; on the tree
this amounts to rewriting each text node (markup that itself spells a
pattern, e.g. inside attribute values, is out of the model's scope). -/
def stripTextsN : Node → Node
  | .text s => .text (stripChromePatterns s)
  | .elem t a m cs => .elem t a m (stripTextsL cs)
def stripTextsL : List Node → List Node
  | [] => []
  | c :: cs => stripTextsN c :: stripTextsL cs
end

/-- Lines 149-159: scripts/noscript/iframe/embed/object, non-stylesheet
`<link>`s, and `<style>`s. -/
def wordsGo : List Char → List Char → List String
  | [], acc => if acc.isEmpty then [] else [⟨acc.reverse⟩]
  | c :: cs, acc =>
      if isWs c then
        if acc.isEmpty then wordsGo cs [] else ⟨acc.reverse⟩ :: wordsGo cs []
      else wordsGo cs (c :: acc)

def splitWords (s : String) : List String := wordsGo s.data []

def relHasStylesheet (n : Node) : Bool :=
  match getAttr "rel" n with
  | none => false
  | some r => (splitWords r).contains "stylesheet"

def removeScripts (n : Node) : Node :=
  remIfN (fun c => match tagOf c with
    | some t => ["script", "noscript", "iframe", "embed", "object"].contains t
    | none => false) n

def removeBadLinks (n : Node) : Node :=
  remIfN (fun c => tagOf c = some "link" && !relHasStylesheet c) n

def removeStyles (n : Node) : Node :=
  remIfN (fun c => tagOf c = some "style") n

/-! ### Main-content detection (lines 162-179) -/

def mainCandTags : List String := ["article", "main", "div", "section"]

mutual
/-- For each candidate container in document order: (score, p-count,
text length), with `score = p_count * 200 + txt_len`. -/
def candInfoN : Node → List (Nat × Nat × Nat)
  | .text _ => []
  | .elem t _ _ cs =>
      (if mainCandTags.contains t then
        [(countTagL "p" cs * 200 + (getTextSpL cs).length,
          countTagL "p" cs, (getTextSpL cs).length)]
       else []) ++ candInfoL cs
def candInfoL : List Node → List (Nat × Nat × Nat)
  | [] => []
  | c :: cs => candInfoN c ++ candInfoL cs
end

/-- First index of the strictly-best score (`best_score = -1` start, strict
`>` update keeps the earliest maximum). -/
def bestIdxGo : List (Nat × Nat × Nat) → Nat → Option (Nat × Nat × Nat × Nat) →
    Option (Nat × Nat × Nat × Nat)
  | [], _, acc => acc
  | e :: es, i, acc =>
      match acc with
      | none => bestIdxGo es (i + 1) (some (i, e))
      | some (bi, be) =>
          if e.1 > be.1 then bestIdxGo es (i + 1) (some (i, e))
          else bestIdxGo es (i + 1) (some (bi, be))

mutual
/-- Mark the k-th candidate element (same document order as `candInfoN`). -/
def markNthN : Option Nat → Node → Node × Option Nat
  | none, n => (n, none)
  | some k, .text s => (.text s, some k)
  | some k, .elem t a m cs =>
      if mainCandTags.contains t then
        if k = 0 then (.elem t a true cs, none)
        else
          let (cs', st) := markNthL (some (k - 1)) cs
          (.elem t a m cs', st)
      else
        let (cs', st) := markNthL (some k) cs
        (.elem t a m cs', st)
def markNthL : Option Nat → List Node → List Node × Option Nat
  | st, [] => ([], st)
  | st, c :: cs =>
      let (c', st') := markNthN st c
      let (cs', st'') := markNthL st' cs
      (c' :: cs', st'')
end

/-- Detect and mark `main_root`: highest score wins, but only kept when the
winner has ≥ 3 paragraphs or ≥ 800 characters of visible text. -/
def detectMain (doc : Node) : Node :=
  match bestIdxGo (candInfoN doc) 0 none with
  | none => doc
  | some (idx, _, pc, tl) =>
      if pc < 3 && tl < 800 then doc
      else (markNthN (some idx) doc).1

/-! ### Chrome-tag and keyword-chrome removal (lines 182-238) -/

/-- Lines 182-186: headers/footers/nav/aside/form/button/svg, kept only when
the element is, or properly contains, the main root. -/
def removeChromeTags (n : Node) : Node :=
  remIfN (fun c =>
    (match tagOf c with
     | some t => ["header", "footer", "nav", "aside", "form", "button",
                  "svg"].contains t
     | none => false) && !holdsMain c) n

def chromeKeywords : List String :=
  ["toolbar", "pagination", "pager", "rating", "review", "message",
   "notification", "cta", "book-navigation", "book_nav", "breadcrumb",
   "sidebar", "overlay", "modal", "banner", "cookie", "progressbar",
   "progress-bar"]

def kwTags : List String := ["div", "nav", "aside", "section", "header", "footer"]

def attrD (k : String) (attrs : List (String × String)) : String :=
  ((attrs.find? (fun p => p.1 = k)).map Prod.snd).getD ""

/-- `cid` / `cls` keyword match of lines 210-220. -/
def kwMatches (attrs : List (String × String)) : Bool :=
  let cid := lowerS (String.intercalate " " (splitWords (attrD "id" attrs)))
  let cls := lowerS (attrD "class" attrs)
  chromeKeywords.any (fun k => containsS cid k || containsS cls k)

/-- The removal decision of lines 220-238 for one element: a keyword-chrome
tag, not protected by the main root (either way round), not content-like
(≥ 3 paragraphs, > 500 chars, any image). -/
def kwRemovable (insideMain : Bool) : Node → Bool
  | .text _ => false
  | .elem t a m kids =>
      kwTags.contains t && kwMatches a &&
      !(holdsMain (.elem t a m kids) || insideMain) &&
      !(countTagL "p" kids ≥ 3 || (getTextSpL kids).length > 500) &&
      !(countTagL "img" kids > 0)

mutual
/-- Lines 209-238: remove keyword-matching chrome containers, protected when
the element holds / is inside the main root, or looks like content. -/
def kwCleanN (insideMain : Bool) : Node → Node
  | .text s => .text s
  | .elem t a m cs => .elem t a m (kwCleanL (insideMain || m) cs)
def kwCleanL (insideMain : Bool) : List Node → List Node
  | [] => []
  | c :: cs =>
      if kwRemovable insideMain c then kwCleanL insideMain cs
      else kwCleanN insideMain c :: kwCleanL insideMain cs
end

/-- The removal predicate of lines 240-241: a `div`/`p`/`span` with no text
and no `img`/`table` descendant. -/
def removableEmpty (c : Node) : Bool :=
  (match tagOf c with
   | some t => ["div", "p", "span"].contains t
   | none => false) && allBlank c && countTag "img" c = 0 &&
    countTag "table" c = 0

/-- Lines 239-242: remove empty `div`/`p`/`span` containers. -/
def removeEmptyContainers (n : Node) : Node := remIfN removableEmpty n

/-- Lines 248-253: delete the exact book-title string from text nodes
(case-sensitive `str.replace`). -/
def titleTextLit : List Char :=
  "Il Cammino Neocatecumenale: Storia e pratica religiosa (Vol. I)".data

mutual
def removeTitleTextN : Node → Node
  | .text s => .text ⟨subAll (litM titleTextLit) (s.data.length + 1) s.data⟩
  | .elem t a m cs => .elem t a m (removeTitleTextL cs)
def removeTitleTextL : List Node → List Node
  | [] => []
  | c :: cs => removeTitleTextN c :: removeTitleTextL cs
end

/-! ### Noise-phrase removal (lines 255-322)

`find_all(string=noise_re)` materializes matching text nodes; removing one
either deletes its nearest small block ancestor or extracts just the text
node, so on the live tree the pass equals repeatedly locating the first
matching text node and acting, until none matches. -/

mutual
/-- Path (child indices from the root) of the first text node in document
order whose string matches the noise alternation. -/
def findNoiseN : Node → Option (List Nat)
  | .text s => if noiseSearch s then some [] else none
  | .elem _ _ _ cs => findNoiseL cs 0
def findNoiseL : List Node → Nat → Option (List Nat)
  | [], _ => none
  | c :: cs, i =>
      match findNoiseN c with
      | some p => some (i :: p)
      | none => findNoiseL cs (i + 1)
end

def getNodeAt : List Nat → Node → Option Node
  | [], n => some n
  | _ :: _, .text _ => none
  | i :: rest, .elem _ _ _ cs =>
      match cs.get? i with
      | some c => getNodeAt rest c
      | none => none

def modifyIdx (f : Node → Node) : Nat → List Node → List Node
  | _, [] => []
  | 0, c :: cs => f c :: cs
  | i + 1, c :: cs => c :: modifyIdx f i cs

/-- Remove the node at a path.  An empty path models `body.decompose()`
(the body itself chosen as the block): the model empties it; this edge is
not exercised by any theorem below. -/
def removeAt : List Nat → Node → Node
  | [], .elem t a m _ => .elem t a m []
  | [], .text _ => .text ""
  | [_], .text s => .text s
  | [i], .elem t a m cs => .elem t a m (cs.eraseIdx i)
  | _ :: _, .text s => .text s
  | i :: rest, .elem t a m cs => .elem t a m (modifyIdx (removeAt rest) i cs)

def noiseBlockTags : List String :=
  ["section", "div", "nav", "header", "footer", "aside"]

def styleAttrOf (n : Node) : String :=
  match n with
  | .text _ => ""
  | .elem _ a _ _ => lowerS (attrD "style" a)

def spanDisplayBlock (n : Node) : Bool :=
  containsS (styleAttrOf n) "display:block" || containsS (styleAttrOf n) "display: block"

/-- Lines 278-300: nearest block-level ancestor of the matched string (the
walk never selects `body`, whose tag is not in the set, falling back to the
immediate parent), then the `span[style display:block]` parent override. -/
def noiseBlockPath (root : Node) (path : List Nat) : List Nat :=
  let parentPath := path.dropLast
  let walk := ((List.range path.length).reverse.map (fun k => path.take k)).find?
    (fun pp =>
      match getNodeAt pp root with
      | some n =>
          (match tagOf n with
           | some t => noiseBlockTags.contains t
           | none => false)
      | none => false)
  let blk := walk.getD parentPath
  match getNodeAt parentPath root with
  | some pNode =>
      if tagOf pNode = some "span" && spanDisplayBlock pNode then parentPath else blk
  | none => blk

/-- One removal step (lines 301-322): decompose the block when it is small
(≤ 1 paragraph, < 400 chars, no image) and does not hold the main root,
else extract just the text node. -/
def noiseStep (root : Node) : Option Node :=
  match findNoiseN root with
  | none => none
  | some path =>
      let blk := noiseBlockPath root path
      match getNodeAt blk root with
      | some blkNode =>
          if !holdsMain blkNode && countTag "p" blkNode ≤ 1 &&
             (getTextSp blkNode).length < 400 && countTag "img" blkNode = 0 then
            some (removeAt blk root)
          else some (removeAt path root)
      | none => some (removeAt path root)

def noiseLoop : Nat → Node → Node
  | 0, n => n
  | fuel + 1, n =>
      match noiseStep n with
      | none => n
      | some n' => noiseLoop fuel n'

/-- The whole noise pass; every step removes at least one node, so
`nsize`-many steps suffice. -/
def removeNoisePass (n : Node) : Node := noiseLoop (nsize n + 1) n

/-! ### Overlays, utility lists, duplicated titles (lines 324-450) -/

def positioned (n : Node) : Bool :=
  let st := styleAttrOf n
  containsS st "position:absolute" || containsS st "position: absolute" ||
  containsS st "position:fixed" || containsS st "position: fixed"

/-- Pass 3 (lines 324-343): inside containers that hold an image, drop
positioned elements without images.  `body` itself is a qualifying
container whenever the page has any image, so the pass amounts to a global
sweep in that case. -/
def removeOverlays (root : Node) : Node :=
  if hasTag "img" root then
    remIfN (fun c =>
      tagOf c ≠ some "img" && positioned c && countTag "img" c = 0) root
  else root

mutual
/-- `get_text` of every `<a>` in the subtree (self included), lowered (the
`link_texts` sets). -/
def linkTextsSelf : Node → List String
  | .text _ => []
  | .elem t _ _ kids =>
      (if t = "a" then [lowerS (getTextSpL kids)] else []) ++ linkTextsL kids
def linkTextsL : List Node → List String
  | [] => []
  | c :: cs => linkTextsSelf c ++ linkTextsL cs
end

def utilWords : List String := ["highlight", "delete", "add note", "share quote"]

/-- Pass 4b (lines 345-360): utility-only or tiny lists anywhere, unless
they hold the main root. -/
def removeUtilLists (root : Node) : Node :=
  remIfN (fun c =>
    match c with
    | .elem t _ _ kids =>
        (t = "ul" || t = "ol") &&
        (let lts := linkTextsL kids
         let tl := (getTextSpL kids).length
         ((!lts.isEmpty && lts.all (fun s => utilWords.contains s)) ||
          (lts.length ≤ 3 && tl < 120))) &&
        !holdsMain c
    | .text _ => false) root

def titleReSearch (s : String) : Bool :=
  searchPats [.lit "il", .ws1, .lit "cammino", .ws1, .lit "neocatecumenale"]
    none (lowerL s.data)

def p4cPred (t : String) (kids : List Node) : Bool :=
  ["h1", "h2", "h3", "div", "p", "span"].contains t &&
  (let txt := lowerS (getTextSpL kids)
   decide (txt ≠ "") && txt.length < 200 && titleReSearch txt) &&
  countTagL "img" kids = 0

def p4cRemovable : Node → Bool
  | .text _ => false
  | .elem t _ _ kids => p4cPred t kids

mutual
/-- Pass 4c (lines 362-384): within the first ~200 elements depth-first,
drop short title-echo headings without images.  The counter advances per
element (strings skipped); a removed element's subtree is not traversed. -/
def p4cN : Node → Nat → Node × Nat
  | .text s, k => (.text s, k)
  | .elem t a m cs, k =>
      let r := p4cL cs k
      (.elem t a m r.1, r.2)
def p4cL : List Node → Nat → List Node × Nat
  | [], k => ([], k)
  | c :: cs, k =>
      if k > 200 then (c :: cs, k)
      else if !isElemNode c then
        let r := p4cL cs k
        (c :: r.1, r.2)
      else if p4cRemovable c then p4cL cs (k + 1)
      else
        let r1 := p4cN c (k + 1)
        let r2 := p4cL cs r1.2
        (r1.1 :: r2.1, r2.2)
end

def pass4c (root : Node) : Node :=
  match root with
  | .elem t a m cs => .elem t a m (p4cL cs 0).1
  | n => n

def p10KillList (kids : List Node) : Bool :=
  let links := linkTextsL kids
  let tl := (getTextSpL kids).length
  let onlyUtils := !links.isEmpty && links.all (fun s => utilWords.contains s)
  (links.length ≥ 3 && tl < 300) || onlyUtils || (links.length ≤ 3 && tl < 120)

def p10KillHead (kids : List Node) : Bool :=
  let ht := lowerS (getTextSpL kids)
  containsS ht "il cammino neocatecumenale" && ht.length < 200

/-- Pass 4 (lines 386-414): trim navigation lists and duplicate title
headings among the first 10 direct children of the body. -/
def pass4Top (root : Node) : Node :=
  match root with
  | .elem t a m cs =>
      let kept := (cs.take 10).filter (fun c =>
        match c with
        | .text _ => true
        | .elem ct _ _ kids =>
            !((ct = "ul" || ct = "ol") && p10KillList kids) &&
            !(["h1", "h2", "div", "p"].contains ct && p10KillHead kids))
      .elem t a m (kept ++ cs.drop 10)
  | n => n

def p11Go : List Node → List Node
  | [] => []
  | c :: cs =>
      match c with
      | .text s => .text s :: p11Go cs
      | .elem ct aa mm kids =>
          if ["h1", "h2", "div", "p"].contains ct then
            let txt := lowerS (getTextSpL kids)
            if containsS txt "il cammino neocatecumenale" && txt.length < 200 then cs
            else .elem ct aa mm kids :: cs
          else .elem ct aa mm kids :: p11Go cs

/-- Pass 5 (lines 416-432): the first `h1`/`h2`/`div`/`p` child, if it is a
short title echo, is dropped. -/
def pass5Top (root : Node) : Node :=
  match root with
  | .elem t a m cs => .elem t a m (p11Go cs)
  | n => n

def upperChar (c : Char) : Char :=
  if 'a' ≤ c && c ≤ 'z' then Char.ofNat (c.toNat - 32) else c

def upperS (s : String) : String := ⟨s.data.map upperChar⟩

def p12Go : Nat → List Node → List Node
  | _, [] => []
  | 0, cs => cs
  | k + 1, c :: cs =>
      match c with
      | .text s => .text s :: p12Go k cs
      | .elem ct aa mm kids =>
          if ["h1", "h2", "h3", "div", "p"].contains ct then
            let txt := strip (getTextSpL kids)
            if upperS txt = "INTRODUZIONE" ||
               startsWithS (lowerS txt) "introduzione" then cs
            else .elem ct aa mm kids :: p12Go k cs
          else .elem ct aa mm kids :: p12Go k cs

/-- Pass 6 (lines 434-450): remove the first standalone INTRODUZIONE
heading among the first 8 children, then stop. -/
def pass6Top (root : Node) : Node :=
  match root with
  | .elem t a m cs => .elem t a m (p12Go 8 cs)
  | n => n

mutual
/-- Attribute hygiene (lines 453-463): drop `data-*` and `on*` attributes
everywhere. -/
def cleanAttrsN : Node → Node
  | .text s => .text s
  | .elem t a m cs =>
      .elem t (a.filter (fun p =>
        !(startsWithS p.1 "data-" || startsWithS p.1 "on"))) m (cleanAttrsL cs)
def cleanAttrsL : List Node → List Node
  | [] => []
  | c :: cs => cleanAttrsN c :: cleanAttrsL cs
end

/-- `clean_html_keep_structure` on the parsed body: the passes of lines
128-465 in source order. -/
def cleanHtmlKeepStructure (body : Node) : Node :=
  let d := stripTextsN body
  let d := removeScripts d
  let d := removeBadLinks d
  let d := removeStyles d
  let d := detectMain d
  let d := removeChromeTags d
  let d := kwCleanN false d
  let d := removeEmptyContainers d
  let d := removeTitleTextN d
  let d := removeNoisePass d
  let d := removeOverlays d
  let d := removeUtilLists d
  let d := pass4c d
  let d := pass4Top d
  let d := pass5Top d
  let d := pass6Top d
  cleanAttrsN d

/-! ## The per-file loop of `build_book` (lines 638-834) -/

mutual
def findTagSelf (t : String) : Node → Option Node
  | .text _ => none
  | .elem ct a m kids =>
      if ct = t then some (.elem ct a m kids) else findTagL t kids
def findTagL (t : String) : List Node → Option Node
  | [] => none
  | c :: cs =>
      match findTagSelf t c with
      | some r => some r
      | none => findTagL t cs
end

def findTagN (t : String) : Node → Option Node
  | .text _ => none
  | .elem _ _ _ cs => findTagL t cs

/-- `get_text(strip=True)` (no separator): concatenation of the stripped
strings. -/
def getTextStripCat (n : Node) : String := String.join ((nodeTexts n).map strip)

/-- Chapter title and heading flag (lines 707-713 with `extract_title`):
first `<h1>` text, else the document title, else the file stem; the flag is
set only when a genuine `<h1>` text exists. -/
def chapTitleOf (docTitle stem : String) (doc : Node) : String × Bool :=
  let h1txt :=
    match findTagN "h1" doc with
    | some h1 => getTextStripCat h1
    | none => ""
  if h1txt ≠ "" then (h1txt, true)
  else if strip docTitle ≠ "" then (strip docTitle, false)
  else (stem, false)

/-- A source page after file reading and parsing: file stem, raw `<title>`
text, parsed body element. -/
structure Page where
  stem : String
  title : String
  body : Node

structure Chapter where
  /-- `chap_index` at creation (the ordinal in `chapters/ch_%03d.xhtml`). -/
  ordinal : Nat
  title : String
  /-- The body content serialized into both outputs. -/
  content : List Node
  /-- `include_h1_in_pdf`. -/
  includeH1 : Bool

structure RunSt where
  chapters : List Chapter
  embedItems : List EpubItem
  counterLog : List (List Nat)
  cover : Option EpubItem
  coverSet : Bool
  chapIndex : Nat
  translationCalled : Bool

def initRunSt : RunSt := ⟨[], [], [], none, false, 0, false⟩

/-- Lines 715-718: on every file until a cover is found, try to pick one
from the first image of the (already rewritten) soup. -/
def coverStep (fetch : String → Option (List Nat × String)) (soup2 : Node)
    (st : RunSt) : RunSt :=
  if st.coverSet then st
  else
    match pickCoverFromFirstImage fetch soup2 with
    | some c => { st with cover := some c, coverSet := true }
    | none => st

/-- Lines 720-813: heuristic gate, reshape, `chap_index` increment (before
the validity gate, so a validity-rejected page still consumes an ordinal),
validity gate, chapter commit. -/
def gateStep (docTitle stem : String) (soup2 : Node) (st : RunSt) : RunSt :=
  let f := featuresOf docTitle soup2
  if gateSkips f then st
  else
    let cs := contentAfterReshape f (childrenOf soup2)
    if chapterIsValid cs then
      { st with chapIndex := st.chapIndex + 1,
                chapters := st.chapters ++
                  [⟨st.chapIndex + 1, (chapTitleOf docTitle stem soup2).1, cs,
                    (chapTitleOf docTitle stem soup2).2⟩] }
    else { st with chapIndex := st.chapIndex + 1 }

/-- The tail of the loop body after translation (lines 705-813): title
derivation, cover attempt (before the gate), then the gate sequence. -/
def processAfter (fetch : String → Option (List Nat × String))
    (docTitle stem : String) (soup2 : Node) (st : RunSt) : RunSt :=
  gateStep docTitle stem soup2 (coverStep fetch soup2 st)

/-- One iteration of the `for file in files` loop (lines 692-813).  The raw
`title_patterns` substitution reaches the `<title>` text as well as the
body; sanitize, embed (per-file prefix `img_<file_idx>_`), translate (a
batch failure raises and unwinds the whole run), then the gate. -/
def processFile (fetch : String → Option (List Nat × String))
    (tr : Option TrOracle) (fileIdx : Nat) (p : Page) (st : RunSt) :
    Except RunSt RunSt :=
  let docTitle := stripChromePatterns p.title
  let soup0 := cleanHtmlKeepStructure p.body
  let pfx := "img_" ++ natToStr fileIdx ++ "_"
  let er := embedImagesAndRewrite fetch pfx soup0
  let st := { st with embedItems := st.embedItems ++ er.2.1
                    , counterLog := st.counterLog ++ [er.2.2] }
  match tr with
  | none => .ok (processAfter fetch docTitle p.stem er.1 st)
  | some t =>
      let texts := collectTexts er.1
      if texts.isEmpty then .ok (processAfter fetch docTitle p.stem er.1 st)
      else
        let st := { st with translationCalled := true }
        match translateTexts t texts with
        | none => .error st
        | some res =>
            .ok (processAfter fetch docTitle p.stem (translateSoupInPlace res er.1) st)

def runLoop (fetch : String → Option (List Nat × String)) (tr : Option TrOracle) :
    List Page → Nat → RunSt → RunSt × Option String
  | [], _, st => (st, none)
  | p :: ps, i, st =>
      match processFile fetch tr i p st with
      | .error st' => (st', some "translation batch failed after retries")
      | .ok st' => runLoop fetch tr ps (i + 1) st'

/-- Observable outcome of `build_book`: the chapter list (`chapters` on
abort holds the internal state at unwind — nothing of it is emitted), the
registered embed items, the per-call counter logs, the cover, the failure,
and whether each requested output was written. -/
structure RunResult where
  chapters : List Chapter
  embedItems : List EpubItem
  counterLog : List (List Nat)
  cover : Option EpubItem
  error : Option String
  wroteEpub : Bool
  wrotePdf : Bool
  translationCalled : Bool

/-- `build_book`: no source files aborts (exit 1); an uncaught translation
error aborts before the writes of lines 829-839; zero surviving chapters
aborts (exit 1); otherwise the requested outputs are written. -/
def buildBook (fetch : String → Option (List Nat × String))
    (tr : Option TrOracle) (epubRequested pdfRequested : Bool)
    (files : List Page) : RunResult :=
  if files.isEmpty then
    ⟨[], [], [], none, some "no html files found", false, false, false⟩
  else
    match runLoop fetch tr files 1 initRunSt with
    | (st, some e) =>
        ⟨st.chapters, st.embedItems, st.counterLog, st.cover, some e,
         false, false, st.translationCalled⟩
    | (st, none) =>
        if st.chapters.isEmpty then
          ⟨[], st.embedItems, st.counterLog, st.cover,
           some "no chapter with content survived", false, false,
           st.translationCalled⟩
        else
          ⟨st.chapters, st.embedItems, st.counterLog, st.cover, none,
           epubRequested, pdfRequested, st.translationCalled⟩

/-! ## Derived observations used by the theorems -/

/-- First `<img>` src inside a chapter body. -/
def firstImgSrcIn (cs : List Node) : Option String :=
  (findImgL cs).bind (getAttr "src")

/-- Does the page pass the heuristic gate of line 758 (at loop position
`i`)?  Mirrors the computation `processFile` performs before the gate. -/
def pageHeurPasses (fetch : String → Option (List Nat × String)) (i : Nat)
    (p : Page) : Bool :=
  let docTitle := stripChromePatterns p.title
  let soup := (embedImagesAndRewrite fetch ("img_" ++ natToStr i ++ "_")
    (cleanHtmlKeepStructure p.body)).1
  !gateSkips (featuresOf docTitle soup)

/-- Does the page additionally pass the markup-validity gate? -/
def pageFullPasses (fetch : String → Option (List Nat × String)) (i : Nat)
    (p : Page) : Bool :=
  let docTitle := stripChromePatterns p.title
  let soup := (embedImagesAndRewrite fetch ("img_" ++ natToStr i ++ "_")
    (cleanHtmlKeepStructure p.body)).1
  let f := featuresOf docTitle soup
  !gateSkips f && chapterIsValid (contentAfterReshape f (childrenOf soup))

/-- Reference description of the ordinals a run hands out: `chap_index`
advances once per heuristically-accepted page; only validity-passing pages
appear in the output. -/
def ordinalSpec (fetch : String → Option (List Nat × String)) :
    List Page → Nat → Nat → List Nat
  | [], _, _ => []
  | p :: ps, i, k =>
      if pageHeurPasses fetch i p then
        if pageFullPasses fetch i p then (k + 1) :: ordinalSpec fetch ps (i + 1) (k + 1)
        else ordinalSpec fetch ps (i + 1) (k + 1)
      else ordinalSpec fetch ps (i + 1) k

/-- Reference description of the cover: the first file (in processing
order, accepted or not) whose post-embedding first image re-resolves. -/
def coverScan (fetch : String → Option (List Nat × String)) :
    List Page → Nat → Option EpubItem
  | [], _ => none
  | p :: ps, i =>
      match pickCoverFromFirstImage fetch
        (embedImagesAndRewrite fetch ("img_" ++ natToStr i ++ "_")
          (cleanHtmlKeepStructure p.body)).1 with
      | some c => some c
      | none => coverScan fetch ps (i + 1)

/-- Claim-level emptiness: an element with no text and no image/table
content (the element itself counting as its own image/table content). -/
def emptyOfTextAndMedia (n : Node) : Bool :=
  allBlank n && countTagTop "img" n == 0 && countTagTop "table" n == 0

mutual
/-- Some element of the forest (tops included) is empty of text and of
image/table content. -/
def hasEmptyElemN : Node → Bool
  | .text _ => false
  | .elem t a m cs => emptyOfTextAndMedia (.elem t a m cs) || hasEmptyElemL cs
def hasEmptyElemL : List Node → Bool
  | [] => false
  | c :: cs => hasEmptyElemN c || hasEmptyElemL cs
end

/-- `removableEmpty` restated on an element's parts. -/
def emptyDPSPred : Node → Bool
  | .text _ => false
  | .elem t a m kids =>
      ["div", "p", "span"].contains t && allBlank (.elem t a m kids) &&
      countTagL "img" kids = 0 && countTagL "table" kids = 0

mutual
/-- Some element of the subtree (self included) is an empty `div`/`p`/`span`
in the sense of the removal pass of lines 240-242. -/
def anyEmptyDPSSelf : Node → Bool
  | .text _ => false
  | .elem t a m cs => emptyDPSPred (.elem t a m cs) || anyEmptyDPSL cs
def anyEmptyDPSL : List Node → Bool
  | [] => false
  | c :: cs => anyEmptyDPSSelf c || anyEmptyDPSL cs
end

/-- Some proper descendant is an empty `div`/`p`/`span`. -/
def anyEmptyDPS : Node → Bool
  | .text _ => false
  | .elem _ _ _ cs => anyEmptyDPSL cs

/-! ### Parsing the generated asset names (for the uniqueness proofs) -/

/-- Maximal nonempty digit run. -/
def parseDigits (cs : List Char) : Option (List Char × List Char) :=
  let ds := cs.takeWhile isDigitC
  if ds.isEmpty then none else some (ds, cs.drop ds.length)

/-- Split a generated name `images/img_<i>_<c><ext>` into the two digit
runs and the remainder. -/
def parseImgName (s : String) : Option (List Char × List Char × List Char) :=
  match litM "images/img_".data s.data with
  | none => none
  | some r =>
      match parseDigits r with
      | none => none
      | some (ds1, r1) =>
          match r1 with
          | '_' :: r2 =>
              match parseDigits r2 with
              | none => none
              | some (ds2, r3) => some (ds1, ds2, r3)
          | _ => none

/-- Numeric value of a digit run. -/
def valDigits (ds : List Char) : Nat :=
  ds.foldl (fun a c => a * 10 + (c.toNat - 48)) 0

/-! ## Concrete inputs for the counterexamples and witnesses -/

/-- 257 characters of ordinary prose free of every noise phrase, chrome
keyword and title pattern in the source. -/
def fillerText : String :=
  "Quaranta anni dopo la fondazione, la comunita si riuniva ogni settimana per leggere i testi antichi e discutere il senso della vita comune, mentre i giovani imparavano i canti tradizionali e gli anziani raccontavano storie della prima generazione di membri."

/-- 174 characters of the same kind of prose (between 160 and 200). -/
def text180 : String :=
  "La sera del primo giorno i viandanti giunsero al villaggio e trovarono una casa accogliente dove riposare fino al mattino, quando il sole illumino la valle e il fiume vicino."

/-- A network where every fetch fails. -/
def noFetch : String → Option (List Nat × String) := fun _ => none

/-- A network where only the tracking pixel resolves. -/
def pixFetch : String → Option (List Nat × String) :=
  fun url => if url = "http://x/pix.gif" then some ([7], "image/gif") else none

/-- A translation adapter whose batch call fails on every attempt. -/
def failTr : TrOracle := fun _ _ => none

/-- An ordinary content page. -/
def pageNormal (st : String) : Page :=
  ⟨st, "Capitolo", el "body" [] [el "p" [] [tx fillerText]]⟩

/-- A page of six empty links: it passes every heuristic of line 758 (six
links defeat `very_short`) but reshapes to nothing and fails the validity
gate. -/
def pageAnchors : Page :=
  ⟨"f2", "Links", el "body" []
    [ el "a" [("href", "e")] [], el "a" [("href", "e")] []
    , el "a" [("href", "e")] [], el "a" [("href", "e")] []
    , el "a" [("href", "e")] [], el "a" [("href", "e")] [] ]⟩

/-- A page whose body keeps an empty `<blockquote>` through sanitization. -/
def pageBQ : Page :=
  ⟨"f1", "Capitolo", el "body" [] [el "blockquote" [] [], el "p" [] [tx fillerText]]⟩

/-- First cover-scenario page: a data-URI image that embeds successfully
(so its src is rewritten to a package-local path). -/
def pageC5a : Page :=
  ⟨"f1", "Uno", el "body" []
    [el "p" [] [tx fillerText], el "img" [("src", "data:image/png;base64,AAAA")] []]⟩

/-- Second cover-scenario page: a remote tracking pixel the embedder skips
(width 1) but the cover picker happily downloads. -/
def pageC5b : Page :=
  ⟨"f2", "Due", el "body" []
    [el "img" [("src", "http://x/pix.gif"), ("width", "1")] [], el "p" [] [tx fillerText]]⟩

/-- A page with an external image whose fetch fails. -/
def pageC6 : Page :=
  ⟨"f1", "Uno", el "body" []
    [el "p" [] [tx fillerText], el "img" [("src", "http://fail/x.png")] []]⟩

/-- Two pages each embedding one data-URI image (for the counter log). -/
def pageD1 : Page :=
  ⟨"f1", "Uno", el "body" []
    [el "p" [] [tx fillerText], el "img" [("src", "data:image/png;base64,AAAA")] []]⟩

def pageD2 : Page :=
  ⟨"f2", "Due", el "body" []
    [el "p" [] [tx fillerText], el "img" [("src", "data:image/gif;base64,BBBB")] []]⟩

/-- A page whose raw document title is exactly the chrome book title and
whose body is 174 characters in one paragraph. -/
def pageC10 : Page :=
  ⟨"f1", "Il Cammino Neocatecumenale", el "body" [] [el "p" [] [tx text180]]⟩

/-- Shape of the items appended by one embedder call: position `k` carries
counter `c0 + k` and an extension whose head is not a digit. -/
def goodDelta (pfx : String) (c0 : Nat) (delta : List EpubItem) : Prop :=
  ∀ k, (h : k < delta.length) → ∃ ext : String,
    isDigitC (ext.data.headD ' ') = false ∧
    (delta.get ⟨k, h⟩).file_name = "images/" ++ (pfx ++ natToStr (c0 + k) ++ ext)

/-- A name of the shape issued by the embedder for a file whose index is
below `bound`. -/
def isGenName (bound : Nat) (s : String) : Prop :=
  ∃ j c : Nat, ∃ ext : String, j < bound ∧
    isDigitC (ext.data.headD ' ') = false ∧
    s = "images/" ++ (("img_" ++ natToStr j ++ "_") ++ natToStr c ++ ext)

/-! # Theorems -/

theorem strip_length_append (a b : String) : (a ++ b).length = a.length + b.length := by
  show (a ++ b).data.length = a.data.length + b.data.length
  rw [String.data_append, List.length_append]

/-- C1: a page whose cleaned body has plain text of at least 200 characters
is accepted by the chapter gate of line 758, overriding the
no-visible-content, noise-only, very-short and chrome-title rejection
heuristics; in particular a noise-phrase-only text of under 240 characters
becomes accepted once prefixed with at least 200 characters of prose. -/
theorem c1_forced_keep_overrides :
    (∀ f : GateFeatures, 200 ≤ f.plain.length → gateSkips f = false) ∧
    (∀ (g : GateFeatures) (pfxS noiseS : String),
      noiseS.length < 240 → junkMatch noiseS = true →
      g.plain = pfxS ++ noiseS → 200 ≤ pfxS.length → gateSkips g = false) := by
  have main : ∀ f : GateFeatures, 200 ≤ f.plain.length → gateSkips f = false := by
    intro f h
    have hf : forcedKeep f = true := by
      simp only [forcedKeep, decide_eq_true_eq]
      exact h
    simp [gateSkips, hf]
  refine ⟨main, ?_⟩
  intro g pfxS noiseS _ _ hplain hlen
  apply main
  rw [hplain, strip_length_append]
  omega

set_option maxRecDepth 1000000 in
theorem c1_forced_keep_overrides_witness :
    gateSkips ⟨"<p></p>", fillerText, false, 1, 0, "Capitolo"⟩ = false ∧
    junkMatch "Highlight" = true ∧
    gateSkips ⟨"", fillerText ++ "Highlight", false, 0, 0, ""⟩ = false :=
  ⟨c1_forced_keep_overrides.1 _ (by decide),
   by decide,
   c1_forced_keep_overrides.2 ⟨"", fillerText ++ "Highlight", false, 0, 0, ""⟩
     fillerText "Highlight" (by decide) (by decide) rfl (by decide)⟩

/-- C10 (amended): with the document title as it stands at the gate (after
the raw-text `title_patterns` removal has run), a chrome-matching title
together with no image, plain text under 400 characters (here under 200, so
not forced-kept) and at most one paragraph makes the gate reject the page. -/
theorem c10_chrome_title_rejects (f : GateFeatures)
    (ht : titleLooksChrome f = true) (hi : f.hasImg = false)
    (h2 : f.plain.length < 200) (h4 : f.plain.length < 400)
    (hp : f.pCount ≤ 1) : gateSkips f = true := by
  have hf : forcedKeep f = false := by
    simp only [forcedKeep, decide_eq_false_iff_not]
    omega
  have hb : bodyTooSmall f = true := by
    simp only [bodyTooSmall, hi, Bool.not_false, Bool.true_and,
      Bool.and_eq_true, decide_eq_true_eq]
    exact ⟨h4, hp⟩
  simp [gateSkips, hf, ht, hb]

theorem c10_chrome_title_rejects_witness :
    gateSkips ⟨"<p></p>", "breve testo", false, 1, 0,
      "Il Cammino Neocatecumenale"⟩ = true :=
  c10_chrome_title_rejects _ (by decide) (by decide) (by decide) (by decide)
    (by decide)

set_option maxRecDepth 1000000 in
/-- C10 (counterexample): a raw page whose document-level title is exactly
the chrome book title, with no image, 174 characters of plain text and one
paragraph, is nevertheless ACCEPTED as a chapter: the raw-text removal pass
of lines 131-144 deletes the title occurrence before parsing, so
`title_looks_chrome` is false by the time the gate runs. -/
theorem c10_counterexample :
    containsS (lowerS pageC10.title) "il cammino neocatecumenale" = true ∧
    stripChromePatterns pageC10.title = "" ∧
    (featuresOf (stripChromePatterns pageC10.title)
      (cleanHtmlKeepStructure pageC10.body)).hasImg = false ∧
    (featuresOf (stripChromePatterns pageC10.title)
      (cleanHtmlKeepStructure pageC10.body)).plain.length = 174 ∧
    (featuresOf (stripChromePatterns pageC10.title)
      (cleanHtmlKeepStructure pageC10.body)).pCount = 1 ∧
    (buildBook noFetch none true false [pageC10]).chapters.map Chapter.ordinal
      = [1] :=
  ⟨by decide, by decide, by decide, by decide, by decide, by decide⟩

theorem coverStep_fields (fetch : String → Option (List Nat × String))
    (soup : Node) (st : RunSt) :
    (coverStep fetch soup st).chapters = st.chapters ∧
    (coverStep fetch soup st).chapIndex = st.chapIndex ∧
    (coverStep fetch soup st).embedItems = st.embedItems ∧
    (coverStep fetch soup st).counterLog = st.counterLog ∧
    (coverStep fetch soup st).translationCalled = st.translationCalled := by
  unfold coverStep
  split
  · exact ⟨rfl, rfl, rfl, rfl, rfl⟩
  · split <;> exact ⟨rfl, rfl, rfl, rfl, rfl⟩

theorem gateStep_fields (dt stm : String) (soup : Node) (st : RunSt) :
    (gateStep dt stm soup st).cover = st.cover ∧
    (gateStep dt stm soup st).coverSet = st.coverSet ∧
    (gateStep dt stm soup st).embedItems = st.embedItems ∧
    (gateStep dt stm soup st).counterLog = st.counterLog ∧
    (gateStep dt stm soup st).translationCalled = st.translationCalled := by
  unfold gateStep
  dsimp only
  split
  · exact ⟨rfl, rfl, rfl, rfl, rfl⟩
  · split <;> exact ⟨rfl, rfl, rfl, rfl, rfl⟩

theorem coverStep_cover (fetch : String → Option (List Nat × String))
    (soup : Node) (st : RunSt) :
    ((coverStep fetch soup st).cover, (coverStep fetch soup st).coverSet) =
      if st.coverSet then (st.cover, st.coverSet)
      else
        match pickCoverFromFirstImage fetch soup with
        | some c => (some c, true)
        | none => (st.cover, st.coverSet) := by
  unfold coverStep
  split
  · rfl
  · split <;> rfl

theorem gateStep_chapters (dt stm : String) (soup : Node) (st : RunSt) :
    ((gateStep dt stm soup st).chapIndex, (gateStep dt stm soup st).chapters) =
      if gateSkips (featuresOf dt soup) then (st.chapIndex, st.chapters)
      else if chapterIsValid
          (contentAfterReshape (featuresOf dt soup) (childrenOf soup)) then
        (st.chapIndex + 1, st.chapters ++
          [⟨st.chapIndex + 1, (chapTitleOf dt stm soup).1,
            contentAfterReshape (featuresOf dt soup) (childrenOf soup),
            (chapTitleOf dt stm soup).2⟩])
      else (st.chapIndex + 1, st.chapters) := by
  unfold gateStep
  dsimp only
  split
  · rfl
  · split <;> rfl

theorem processAfter_translationCalled (fetch : String → Option (List Nat × String))
    (dt stm : String) (soup : Node) (st : RunSt) :
    (processAfter fetch dt stm soup st).translationCalled = st.translationCalled := by
  unfold processAfter
  rw [(gateStep_fields dt stm soup _).2.2.2.2, (coverStep_fields fetch soup st).2.2.2.2]

theorem translateTexts_fail (t : TrOracle) (h : ∀ i ts, t i ts = none)
    (texts : List String) : translateTexts t texts = none := by
  simp [translateTexts, h]

/-- With an always-failing adapter, a run whose loop ever reached a
translation call ends in the uncaught `RuntimeError`. -/
theorem runLoop_translation_abort (fetch : String → Option (List Nat × String))
    (t : TrOracle) (hfail : ∀ i ts, t i ts = none) :
    ∀ (files : List Page) (i : Nat) (st : RunSt),
      st.translationCalled = false →
      (runLoop fetch (some t) files i st).1.translationCalled = true →
      (runLoop fetch (some t) files i st).2 ≠ none := by
  intro files
  induction files with
  | nil =>
      intro i st h hc
      simp only [runLoop] at hc
      rw [h] at hc
      exact absurd hc (by decide)
  | cons p ps ih =>
      intro i st h hc hnone
      rw [runLoop] at hc hnone
      rw [processFile] at hc hnone
      dsimp only at hc hnone
      by_cases he : (collectTexts (embedImagesAndRewrite fetch
          ("img_" ++ natToStr i ++ "_") (cleanHtmlKeepStructure p.body)).1).isEmpty
      · rw [if_pos he] at hc hnone
        dsimp only at hc hnone
        refine ih (i + 1) _ ?_ hc hnone
        rw [processAfter_translationCalled]
        exact h
      · rw [if_neg he] at hc hnone
        rw [translateTexts_fail t hfail] at hc hnone
        dsimp only at hnone
        exact absurd hnone (by simp)

/-- C4: if translation is requested and the adapter's batch call fails on
all five retry attempts, the run aborts with an error and writes neither
the package nor the rendered output (no partial chapters are emitted). -/
theorem c4_translation_failure_aborts
    (fetch : String → Option (List Nat × String)) (t : TrOracle)
    (eo po : Bool) (files : List Page)
    (hfail : ∀ i ts, t i ts = none)
    (hcalled : (buildBook fetch (some t) eo po files).translationCalled = true) :
    (buildBook fetch (some t) eo po files).error ≠ none ∧
    (buildBook fetch (some t) eo po files).wroteEpub = false ∧
    (buildBook fetch (some t) eo po files).wrotePdf = false := by
  unfold buildBook at *
  by_cases hemp : files.isEmpty
  · rw [if_pos hemp] at hcalled
    exact absurd hcalled (by decide)
  · rw [if_neg hemp] at hcalled ⊢
    have habort := runLoop_translation_abort fetch t hfail files 1 initRunSt rfl
    rcases hloop : runLoop fetch (some t) files 1 initRunSt with ⟨st, err⟩
    rw [hloop] at hcalled habort
    cases err with
    | some e => exact ⟨by simp, rfl, rfl⟩
    | none =>
        exfalso
        have hc : st.translationCalled = true := by
          by_cases hch : st.chapters.isEmpty
          · simpa [hch] using hcalled
          · simpa [hch] using hcalled
        exact habort hc rfl

set_option maxRecDepth 1000000 in
theorem c4_translation_failure_aborts_witness :
    (∀ i ts, failTr i ts = none) ∧
    (buildBook noFetch (some failTr) true true
      [pageNormal "f1"]).translationCalled = true ∧
    (buildBook noFetch (some failTr) true true [pageNormal "f1"]).error ≠ none ∧
    (buildBook noFetch (some failTr) true true [pageNormal "f1"]).wroteEpub = false ∧
    (buildBook noFetch (some failTr) true true [pageNormal "f1"]).wrotePdf = false :=
  ⟨fun _ _ => rfl, by decide,
   c4_translation_failure_aborts noFetch failTr true true [pageNormal "f1"]
     (fun _ _ => rfl) (by decide)⟩

set_option maxRecDepth 1000000 in
/-- C2 (counterexample): in a three-page run whose middle page (six bare
links) passes the acceptance heuristics but fails the final markup-validity
gate, the accepted chapters get ordinals 1 and 3 — `chap_index` was
consumed by the validity-rejected page, so the ordinals are NOT consecutive. -/
theorem c2_counterexample :
    (buildBook noFetch none true false
      [pageNormal "f1", pageAnchors, pageNormal "f3"]).chapters.map
        Chapter.ordinal = [1, 3] ∧
    pageHeurPasses noFetch 2 pageAnchors = true ∧
    pageFullPasses noFetch 2 pageAnchors = false ∧
    ¬ List.Chain' (fun a b => b = a + 1) [1, 3] :=
  ⟨by decide, by decide, by decide, by
    rw [List.chain'_cons]
    rintro ⟨h, -⟩
    exact absurd h (by decide)⟩

set_option maxRecDepth 1000000 in
/-- C3 (counterexample): across one run over two files, each embedding one
image, the embedder's counter values are [1] then [1] again — the counter
is local to each call and resets mid-run, so the run-wide counter sequence
is not monotonic; the names stay distinct only because of the per-file
prefix. -/
theorem c3_counterexample :
    (buildBook noFetch none true false [pageD1, pageD2]).counterLog
      = [[1], [1]] ∧
    (buildBook noFetch none true false [pageD1, pageD2]).embedItems.map
      EpubItem.file_name = ["images/img_1_1.png", "images/img_2_1.gif"] ∧
    ¬ List.Chain' (· < ·) ([1, 1] : List Nat) :=
  ⟨by decide, by decide, by
    rw [List.chain'_cons]
    rintro ⟨h, -⟩
    exact absurd h (by decide)⟩

set_option maxRecDepth 1000000 in
/-- C5 (counterexample): the first produced chapter's first image is the
successfully embedded data-URI image (bytes `[0,0,0]`, png), but the
designated cover is the page-2 tracking pixel (bytes `[7]`, gif): the cover
picker runs before the gate on every file until something resolves, and an
embedded image's rewritten local path never re-resolves. -/
theorem c5_counterexample :
    (buildBook pixFetch none true false [pageC5a, pageC5b]).cover
      = some ⟨"images/cover.jpg", [7], "image/gif"⟩ ∧
    (buildBook pixFetch none true false [pageC5a, pageC5b]).chapters.map
      Chapter.ordinal = [1, 2] ∧
    ((buildBook pixFetch none true false [pageC5a, pageC5b]).chapters.head?.map
      (fun c => firstImgSrcIn c.content)) = some (some "images/img_1_1.png") ∧
    (buildBook pixFetch none true false [pageC5a, pageC5b]).embedItems
      = [⟨"images/img_1_1.png", [0, 0, 0], "image/png"⟩] ∧
    ([7] : List Nat) ≠ [0, 0, 0] :=
  ⟨by decide, by decide, by decide, by decide, by decide⟩

set_option maxRecDepth 1000000 in
/-- C6 (counterexample): when the fetch of an external image fails, the
reference is NOT dropped or rewritten to nothing — the `<img>` stays in the
document with its original src (the loop just `continue`s past it). -/
theorem c6_counterexample :
    (embedImagesAndRewrite noFetch "img_1_"
      (el "body" [] [el "img" [("src", "http://fail/x.png")] []])).1
      = el "body" [] [el "img" [("src", "http://fail/x.png")] []] ∧
    (embedImagesAndRewrite noFetch "img_1_"
      (el "body" [] [el "img" [("src", "http://fail/x.png")] []])).2.1 = [] ∧
    (buildBook noFetch none true false [pageC6]).chapters.map
      (fun c => firstImgSrcIn c.content) = [some "http://fail/x.png"] ∧
    (buildBook noFetch none true false [pageC6]).chapters.map
      Chapter.ordinal = [1] :=
  ⟨rfl, rfl, by decide, by decide⟩

set_option maxRecDepth 1000000 in
/-- C8 (counterexample): an empty `<blockquote>` (no text, no image/table
content) survives the whole pipeline into the emitted chapter body — the
empty-container pass only removes `div`/`p`/`span`. -/
theorem c8_counterexample :
    (buildBook noFetch none true false [pageBQ]).chapters.map
      (fun c => hasEmptyElemL c.content) = [true] ∧
    (buildBook noFetch none true false [pageBQ]).chapters.map
      (fun c => countTagL "blockquote" c.content) = [1] ∧
    (buildBook noFetch none true false [pageBQ]).error = none :=
  ⟨by decide, by decide, by decide⟩

theorem gateStep_chapIndex (dt stm : String) (soup : Node) (st : RunSt) :
    (gateStep dt stm soup st).chapIndex =
      if gateSkips (featuresOf dt soup) then st.chapIndex else st.chapIndex + 1 := by
  unfold gateStep
  dsimp only
  split
  · rfl
  · split <;> rfl

theorem gateStep_chaptersList (dt stm : String) (soup : Node) (st : RunSt) :
    (gateStep dt stm soup st).chapters =
      if gateSkips (featuresOf dt soup) then st.chapters
      else if chapterIsValid
          (contentAfterReshape (featuresOf dt soup) (childrenOf soup)) then
        st.chapters ++
          [⟨st.chapIndex + 1, (chapTitleOf dt stm soup).1,
            contentAfterReshape (featuresOf dt soup) (childrenOf soup),
            (chapTitleOf dt stm soup).2⟩]
      else st.chapters := by
  unfold gateStep
  dsimp only
  split
  · rfl
  · split <;> rfl

theorem processFile_none (fetch : String → Option (List Nat × String))
    (i : Nat) (p : Page) (st : RunSt) :
    processFile fetch none i p st = .ok (processAfter fetch
      (stripChromePatterns p.title) p.stem
      (embedImagesAndRewrite fetch ("img_" ++ natToStr i ++ "_")
        (cleanHtmlKeepStructure p.body)).1
      { st with
        embedItems := st.embedItems ++ (embedImagesAndRewrite fetch
          ("img_" ++ natToStr i ++ "_") (cleanHtmlKeepStructure p.body)).2.1,
        counterLog := st.counterLog ++ [(embedImagesAndRewrite fetch
          ("img_" ++ natToStr i ++ "_") (cleanHtmlKeepStructure p.body)).2.2] }) :=
  rfl

theorem runLoop_none_ok (fetch : String → Option (List Nat × String)) :
    ∀ (files : List Page) (i : Nat) (st : RunSt),
      (runLoop fetch none files i st).2 = none := by
  intro files
  induction files with
  | nil => intro i st; rfl
  | cons p ps ih =>
      intro i st
      rw [runLoop, processFile_none]
      exact ih (i + 1) _

/-- Invariant of the loop: the accepted ordinals extend the accumulated ones
by `ordinalSpec` continued from the current `chap_index`. -/
theorem runLoop_ordinals (fetch : String → Option (List Nat × String)) :
    ∀ (files : List Page) (i : Nat) (st : RunSt),
      (runLoop fetch none files i st).1.chapters.map Chapter.ordinal
        = st.chapters.map Chapter.ordinal ++ ordinalSpec fetch files i st.chapIndex := by
  intro files
  induction files with
  | nil => intro i st; simp [runLoop, ordinalSpec]
  | cons p ps ih =>
      intro i st
      rw [runLoop, processFile_none]
      dsimp only
      rw [ih]
      unfold processAfter
      set dt := stripChromePatterns p.title with hdt
      set soup := (embedImagesAndRewrite fetch ("img_" ++ natToStr i ++ "_")
        (cleanHtmlKeepStructure p.body)).1 with hsoup
      set stE : RunSt := { st with
        embedItems := st.embedItems ++ (embedImagesAndRewrite fetch
          ("img_" ++ natToStr i ++ "_") (cleanHtmlKeepStructure p.body)).2.1,
        counterLog := st.counterLog ++ [(embedImagesAndRewrite fetch
          ("img_" ++ natToStr i ++ "_") (cleanHtmlKeepStructure p.body)).2.2] }
        with hstE
      have hcc := coverStep_fields fetch soup stE
      have hccE : (coverStep fetch soup stE).chapters = st.chapters := hcc.1
      have hciE : (coverStep fetch soup stE).chapIndex = st.chapIndex := hcc.2.1
      rw [gateStep_chaptersList, gateStep_chapIndex, hccE, hciE]
      have hheur : pageHeurPasses fetch i p = !gateSkips (featuresOf dt soup) := rfl
      have hfull : pageFullPasses fetch i p =
          (!gateSkips (featuresOf dt soup) &&
           chapterIsValid (contentAfterReshape (featuresOf dt soup)
             (childrenOf soup))) := rfl
      by_cases hg : gateSkips (featuresOf dt soup)
      · simp [ordinalSpec, hheur, hfull, hg, ← hdt, ← hsoup]
      · have hgf : gateSkips (featuresOf dt soup) = false := by simpa using hg
        by_cases hv : chapterIsValid
            (contentAfterReshape (featuresOf dt soup) (childrenOf soup))
        · simp [ordinalSpec, hheur, hfull, hgf, hv, ← hdt, ← hsoup]
        · have hvf : chapterIsValid (contentAfterReshape (featuresOf dt soup)
              (childrenOf soup)) = false := by simpa using hv
          simp [ordinalSpec, hheur, hfull, hgf, hvf, ← hdt, ← hsoup]

theorem ordinalSpec_sorted (fetch : String → Option (List Nat × String)) :
    ∀ (files : List Page) (i k : Nat),
      (∀ x ∈ ordinalSpec fetch files i k, k < x) ∧
      List.Pairwise (· < ·) (ordinalSpec fetch files i k) := by
  intro files
  induction files with
  | nil => intro i k; simp [ordinalSpec]
  | cons p ps ih =>
      intro i k
      unfold ordinalSpec
      by_cases hh : pageHeurPasses fetch i p
      · by_cases hf : pageFullPasses fetch i p
        · simp only [hh, hf, if_true]
          obtain ⟨hb, hp⟩ := ih (i + 1) (k + 1)
          refine ⟨?_, ?_⟩
          · intro x hx
            rcases List.mem_cons.mp hx with h | h
            · omega
            · have := hb x h; omega
          · exact List.pairwise_cons.mpr ⟨fun x hx => hb x hx, hp⟩
        · simp only [hh, hf, if_true, if_false]
          obtain ⟨hb, hp⟩ := ih (i + 1) (k + 1)
          exact ⟨fun x hx => by have := hb x hx; omega, hp⟩
      · simp only [hh, if_false]
        exact ih (i + 1) k

/-- C2 (amended): the ordinals of the accepted chapters are exactly
`ordinalSpec`: `chap_index` advances by one for every page that passes the
acceptance heuristics — including pages the final markup-validity gate then
rejects, which therefore leave gaps — and the accepted ordinals are
strictly increasing (no reuse); they are consecutive from 1 exactly when no
heuristically-accepted page fails the validity gate. -/
theorem c2_ordinals (fetch : String → Option (List Nat × String))
    (eo po : Bool) (files : List Page) :
    (buildBook fetch none eo po files).chapters.map Chapter.ordinal
      = ordinalSpec fetch files 1 0 ∧
    List.Pairwise (· < ·)
      ((buildBook fetch none eo po files).chapters.map Chapter.ordinal) := by
  have hmain : (buildBook fetch none eo po files).chapters.map Chapter.ordinal
      = ordinalSpec fetch files 1 0 := by
    unfold buildBook
    by_cases hemp : files.isEmpty
    · rw [if_pos hemp]
      have : files = [] := List.isEmpty_iff.mp hemp
      subst this
      simp [ordinalSpec]
    · rw [if_neg hemp]
      have hord := runLoop_ordinals fetch files 1 initRunSt
      have herr := runLoop_none_ok fetch files 1 initRunSt
      rcases hloop : runLoop fetch none files 1 initRunSt with ⟨st, err⟩
      rw [hloop] at hord herr
      dsimp only at herr
      subst herr
      dsimp only
      by_cases hch : st.chapters.isEmpty
      · rw [if_pos hch]
        have : st.chapters = [] := List.isEmpty_iff.mp hch
        rw [this] at hord
        simpa [initRunSt] using hord.symm
      · rw [if_neg hch]
        simpa [initRunSt] using hord
  refine ⟨hmain, ?_⟩
  rw [hmain]
  exact (ordinalSpec_sorted fetch files 1 0).2

theorem processAfter_cover (fetch : String → Option (List Nat × String))
    (dt stm : String) (soup : Node) (st : RunSt) :
    (processAfter fetch dt stm soup st).cover = (coverStep fetch soup st).cover ∧
    (processAfter fetch dt stm soup st).coverSet = (coverStep fetch soup st).coverSet := by
  unfold processAfter
  have hg := gateStep_fields dt stm soup (coverStep fetch soup st)
  exact ⟨hg.1, hg.2.1⟩

set_option maxHeartbeats 1000000 in
theorem runLoop_cover_set (fetch : String → Option (List Nat × String)) :
    ∀ (files : List Page) (i : Nat) (st : RunSt), st.coverSet = true →
      (runLoop fetch none files i st).1.cover = st.cover ∧
      (runLoop fetch none files i st).1.coverSet = true := by
  intro files
  induction files with
  | nil => intro i st h; exact ⟨rfl, h⟩
  | cons p ps ih =>
      intro i st h
      rw [runLoop, processFile_none]
      dsimp only
      set soup := (embedImagesAndRewrite fetch ("img_" ++ natToStr i ++ "_")
        (cleanHtmlKeepStructure p.body)).1 with hsoup
      set stE : RunSt := { st with
        embedItems := st.embedItems ++ (embedImagesAndRewrite fetch
          ("img_" ++ natToStr i ++ "_") (cleanHtmlKeepStructure p.body)).2.1,
        counterLog := st.counterLog ++ [(embedImagesAndRewrite fetch
          ("img_" ++ natToStr i ++ "_") (cleanHtmlKeepStructure p.body)).2.2] }
        with hstE
      have hE : stE.coverSet = true := h
      have hEc : stE.cover = st.cover := rfl
      have hcs : (coverStep fetch soup stE).cover = stE.cover ∧
          (coverStep fetch soup stE).coverSet = true := by
        unfold coverStep
        rw [if_pos hE]
        exact ⟨rfl, hE⟩
      have hpa := processAfter_cover fetch (stripChromePatterns p.title) p.stem soup stE
      set stP := processAfter fetch (stripChromePatterns p.title) p.stem soup stE
        with hstP
      have h1 : stP.coverSet = true := by
        rw [hstP, hpa.2]; exact hcs.2
      obtain ⟨hc, hs⟩ := ih (i + 1) stP h1
      refine ⟨?_, hs⟩
      rw [hc, hstP, hpa.1, hcs.1, hEc]

set_option maxHeartbeats 1000000 in
theorem runLoop_cover_scan (fetch : String → Option (List Nat × String)) :
    ∀ (files : List Page) (i : Nat) (st : RunSt), st.coverSet = false →
      (runLoop fetch none files i st).1.cover =
        (match coverScan fetch files i with
         | some c => some c
         | none => st.cover) := by
  intro files
  induction files with
  | nil => intro i st _; simp [runLoop, coverScan]
  | cons p ps ih =>
      intro i st h
      rw [runLoop, processFile_none]
      dsimp only
      set soup := (embedImagesAndRewrite fetch ("img_" ++ natToStr i ++ "_")
        (cleanHtmlKeepStructure p.body)).1 with hsoup
      set stE : RunSt := { st with
        embedItems := st.embedItems ++ (embedImagesAndRewrite fetch
          ("img_" ++ natToStr i ++ "_") (cleanHtmlKeepStructure p.body)).2.1,
        counterLog := st.counterLog ++ [(embedImagesAndRewrite fetch
          ("img_" ++ natToStr i ++ "_") (cleanHtmlKeepStructure p.body)).2.2] }
        with hstE
      have hE : stE.coverSet = false := h
      have hEc : stE.cover = st.cover := rfl
      have hpa := processAfter_cover fetch (stripChromePatterns p.title) p.stem soup stE
      set stP := processAfter fetch (stripChromePatterns p.title) p.stem soup stE
        with hstP
      cases hpick : pickCoverFromFirstImage fetch soup with
      | some c =>
          have hcs : (coverStep fetch soup stE).cover = some c ∧
              (coverStep fetch soup stE).coverSet = true := by
            unfold coverStep
            rw [if_neg (by rw [hE]; exact Bool.false_ne_true), hpick]
            exact ⟨rfl, rfl⟩
          have h1 : stP.coverSet = true := by
            rw [hstP, hpa.2]; exact hcs.2
          obtain ⟨hc, -⟩ := runLoop_cover_set fetch ps (i + 1) stP h1
          have hscan : coverScan fetch (p :: ps) i =
              (match pickCoverFromFirstImage fetch soup with
               | some c => some c
               | none => coverScan fetch ps (i + 1)) := by
            simp only [coverScan]
          rw [hc, hstP, hpa.1, hcs.1, hscan, hpick]
      | none =>
          have hcs : coverStep fetch soup stE = stE := by
            unfold coverStep
            rw [if_neg (by rw [hE]; exact Bool.false_ne_true), hpick]
          have h1 : stP.coverSet = false := by
            rw [hstP, hpa.2, hcs]; exact hE
          have hrec := ih (i + 1) stP h1
          rw [hrec]
          have hscan : coverScan fetch (p :: ps) i =
              (match pickCoverFromFirstImage fetch soup with
               | some c => some c
               | none => coverScan fetch ps (i + 1)) := by
            simp only [coverScan]
          rw [hscan, hpick]
          have h2 : stP.cover = st.cover := by
            rw [hstP, hpa.1, hcs, hEc]
          cases hsc : coverScan fetch ps (i + 1) with
          | some c2 => rfl
          | none => exact h2

/-- C5 (amended): the designated cover is the result of re-resolving, file
by file in processing order and before (and regardless of) chapter
acceptance, the first `<img>` of each embedded soup, keeping the first that
resolves (`coverScan`); since embedded images carry rewritten local paths
that no longer resolve, the cover comes from images the embedder left
alone.  Having no cover is not an error: with no translator, a run can only
fail for want of source files or of surviving chapters. -/
theorem c5_cover_selection (fetch : String → Option (List Nat × String))
    (eo po : Bool) (files : List Page) :
    (buildBook fetch none eo po files).cover = coverScan fetch files 1 ∧
    ((buildBook fetch none eo po files).error = none ∨ files = [] ∨
      (buildBook fetch none eo po files).chapters = []) := by
  unfold buildBook
  by_cases hemp : files.isEmpty
  · rw [if_pos hemp]
    have : files = [] := List.isEmpty_iff.mp hemp
    subst this
    exact ⟨rfl, Or.inr (Or.inl rfl)⟩
  · rw [if_neg hemp]
    have hcov := runLoop_cover_scan fetch files 1 initRunSt rfl
    have herr := runLoop_none_ok fetch files 1 initRunSt
    rcases hloop : runLoop fetch none files 1 initRunSt with ⟨st, err⟩
    rw [hloop] at hcov herr
    dsimp only at herr
    subst herr
    dsimp only
    have hcov' : st.cover = coverScan fetch files 1 := by
      rw [hcov]
      cases coverScan fetch files 1 <;> rfl
    by_cases hch : st.chapters.isEmpty
    · rw [if_pos hch]
      exact ⟨hcov', Or.inr (Or.inr rfl)⟩
    · rw [if_neg hch]
      exact ⟨hcov', Or.inl rfl⟩

/-! ## The empty-container invariant (C8) -/

theorem nsize_pos (c : Node) : 1 ≤ nsize c := by
  cases c with
  | text s => simp [nsize]
  | elem t a m cs => simp [nsize]

theorem allBlank_elem (t : String) (a : List (String × String)) (m : Bool)
    (cs : List Node) : allBlank (.elem t a m cs) = allBlankL cs := rfl

theorem allBlankL_cons (c : Node) (cs : List Node) :
    allBlankL (c :: cs) = (allBlank c && allBlankL cs) := by
  unfold allBlankL allBlank
  show ((nodeTexts c ++ nodeTextsL cs).map strip).all _ = _
  rw [List.map_append, List.all_append]

theorem removableEmpty_elem (t : String) (a : List (String × String)) (m : Bool)
    (kids : List Node) :
    removableEmpty (.elem t a m kids) = emptyDPSPred (.elem t a m kids) := rfl

theorem removableEmpty_notag (t : String) (a : List (String × String)) (m : Bool)
    (kids : List Node) (tg : String)
    (h : removableEmpty (.elem t a m kids) = true) (htg : tg = "img" ∨ tg = "table") :
    countTagTop tg (.elem t a m kids) = 0 := by
  unfold removableEmpty at h
  simp only [tagOf, Bool.and_eq_true, decide_eq_true_eq] at h
  obtain ⟨⟨⟨hdps, -⟩, himg⟩, htab⟩ := h
  have hne : t ≠ tg := by
    rintro rfl
    rcases htg with rfl | rfl <;> exact absurd hdps (by decide)
  unfold countTagTop
  rw [if_neg hne]
  rcases htg with rfl | rfl
  · simpa [countTag] using himg
  · simpa [countTag] using htab

/-- Core induction: the empty-container pass leaves no empty `div`/`p`/
`span` behind, and preserves blankness and `img`/`table` counts. -/
theorem remEmpty_invariant :
    ∀ (n : Nat) (cs : List Node), nsizeL cs ≤ n →
      anyEmptyDPSL (remIfL removableEmpty cs) = false ∧
      allBlankL (remIfL removableEmpty cs) = allBlankL cs ∧
      countTagL "img" (remIfL removableEmpty cs) = countTagL "img" cs ∧
      countTagL "table" (remIfL removableEmpty cs) = countTagL "table" cs := by
  intro n
  induction n with
  | zero =>
      intro cs h
      cases cs with
      | nil => exact ⟨rfl, rfl, rfl, rfl⟩
      | cons c cs' =>
          exfalso
          have := nsize_pos c
          simp only [nsizeL] at h
          omega
  | succ n ih =>
      intro cs h
      cases cs with
      | nil => exact ⟨rfl, rfl, rfl, rfl⟩
      | cons c cs' =>
          have hsz : nsizeL cs' ≤ n := by
            have := nsize_pos c
            simp only [nsizeL] at h
            omega
          obtain ⟨ih1, ih2, ih3, ih4⟩ := ih cs' hsz
          cases c with
          | text s =>
              have hkeep : remIfL removableEmpty (.text s :: cs')
                  = .text s :: remIfL removableEmpty cs' := by
                simp [remIfL, remIfN, isElemNode]
              rw [hkeep]
              refine ⟨?_, ?_, ?_, ?_⟩
              · simpa [anyEmptyDPSL, anyEmptyDPSSelf] using ih1
              · rw [allBlankL_cons, allBlankL_cons, ih2]
              · simpa [countTagL, countTagTop] using ih3
              · simpa [countTagL, countTagTop] using ih4
          | elem t a m kids =>
              have hszk : nsizeL kids ≤ n := by
                simp only [nsizeL, nsize] at h
                omega
              obtain ⟨jh1, jh2, jh3, jh4⟩ := ih kids hszk
              by_cases hp : removableEmpty (.elem t a m kids) = true
              · have hdrop : remIfL removableEmpty (.elem t a m kids :: cs')
                    = remIfL removableEmpty cs' := by
                  simp [remIfL, isElemNode, hp]
                have hblank : allBlank (.elem t a m kids) = true := by
                  unfold removableEmpty at hp
                  simp only [Bool.and_eq_true] at hp
                  exact hp.1.1.2
                rw [hdrop]
                refine ⟨ih1, ?_, ?_, ?_⟩
                · rw [ih2, allBlankL_cons, hblank, Bool.true_and]
                · rw [ih3]
                  show _ = countTagTop "img" _ + _
                  rw [removableEmpty_notag t a m kids "img" hp (Or.inl rfl)]
                  omega
                · rw [ih4]
                  show _ = countTagTop "table" _ + _
                  rw [removableEmpty_notag t a m kids "table" hp (Or.inr rfl)]
                  omega
              · have hpf : removableEmpty (.elem t a m kids) = false := by
                  simpa using hp
                have hkeep : remIfL removableEmpty (.elem t a m kids :: cs')
                    = .elem t a m (remIfL removableEmpty kids)
                        :: remIfL removableEmpty cs' := by
                  simp [remIfL, remIfN, isElemNode, hpf]
                rw [hkeep]
                have h0 : emptyDPSPred (.elem t a m kids) = false := by
                  rw [← removableEmpty_elem]; exact hpf
                have hpredNew : emptyDPSPred
                    (.elem t a m (remIfL removableEmpty kids)) = false := by
                  simp only [emptyDPSPred] at h0 ⊢
                  rw [allBlank_elem, jh2, jh3, jh4]
                  rw [allBlank_elem] at h0
                  exact h0
                refine ⟨?_, ?_, ?_, ?_⟩
                · simp only [anyEmptyDPSL, anyEmptyDPSSelf, hpredNew, jh1, ih1,
                    Bool.false_or, Bool.or_self]
                · rw [allBlankL_cons, allBlankL_cons, ih2, allBlank_elem,
                    allBlank_elem, jh2]
                · simp only [countTagL, countTagTop, jh3, ih3]
                · simp only [countTagL, countTagTop, jh4, ih4]

/-- C8 (amended): the invariant the spec states holds at the point where
the empty-container pass (lines 239-242) has just run, and only for the tag
set that pass actually sweeps: immediately after `removeEmptyContainers`,
no descendant `div`/`p`/`span` is empty of text and of image/table
descendants.  (Other tags, and later passes that extract text nodes, can
still leave empty elements in output chapters — see the counterexample.) -/
theorem c8_empty_container_pass (n : Node) :
    anyEmptyDPS (removeEmptyContainers n) = false := by
  cases n with
  | text s => rfl
  | elem t a m cs =>
      show anyEmptyDPSL (remIfL removableEmpty cs) = false
      exact (remEmpty_invariant (nsizeL cs) cs le_rfl).1

set_option maxRecDepth 1000000 in
/-- C6 (amended): when the fetch of an external image fails (the direct
fetch and the protocol-relative `https:` retry both fail), the embedder
leaves the `<img>` reference untouched — same attributes, no item
registered, counter not advanced — rather than dropping or rewriting it;
the document is not failed, and the containing page is still processed and
accepted as a chapter when it otherwise qualifies (concretely: the page
with the dead image becomes chapter 1, its original `src` intact, and the
run reports no error). -/
theorem c6_failed_fetch_keeps_reference
    (fetch : String → Option (List Nat × String)) (pfx srcv : String)
    (st : EmbedSt)
    (hfail : fetch srcv = none)
    (hfail2 : fetch ("https:" ++ srcv) = none)
    (hdata : startsWithS srcv "data:" = false)
    (hne : srcv ≠ "") :
    processImg fetch pfx [("src", srcv)] st = ([("src", srcv)], st) ∧
    (buildBook noFetch none true false [pageC6]).chapters.map
      (fun c => firstImgSrcIn c.content) = [some "http://fail/x.png"] ∧
    (buildBook noFetch none true false [pageC6]).chapters.map
      Chapter.ordinal = [1] ∧
    (buildBook noFetch none true false [pageC6]).error = none := by
  refine ⟨?_, by decide, by decide, by decide⟩
  unfold processImg downloadImage
  simp [hne, hdata, hfail, hfail2, tinyDim]

/-- Witness for the amended C6 theorem at the concrete dead reference. -/
theorem c6_failed_fetch_keeps_reference_witness :
    noFetch "http://fail/x.png" = none ∧
    startsWithS "http://fail/x.png" "data:" = false ∧
    processImg noFetch "img_1_" [("src", "http://fail/x.png")] ⟨1, [], []⟩
      = ([("src", "http://fail/x.png")], ⟨1, [], []⟩) :=
  ⟨rfl, by decide,
   (c6_failed_fetch_keeps_reference noFetch "img_1_" "http://fail/x.png"
     ⟨1, [], []⟩ rfl rfl (by decide) (by decide)).1⟩

/-! ## Base64 round-trip lemmas -/

theorem b64idxGo_lt (c : Char) : ∀ (l : List Char) (i k : Nat),
    b64idxGo c l i = some k → k < i + l.length := by
  intro l
  induction l with
  | nil => intro i k h; simp [b64idxGo] at h
  | cons a as ih =>
      intro i k h
      unfold b64idxGo at h
      by_cases ha : a = c
      · simp [ha] at h
        simp only [List.length_cons]
        omega
      · simp [ha] at h
        have := ih (i + 1) k h
        simp [List.length_cons]
        omega

theorem b64idx_lt {c : Char} {k : Nat} (h : b64idx c = some k) : k < 64 := by
  have := b64idxGo_lt c b64alphabet 0 k h
  simpa [b64alphabet] using this

theorem digitChar_digit (n : Nat) : isDigitC (digitChar n) = true := by
  unfold digitChar
  have hm : n % 10 < 10 := Nat.mod_lt _ (by norm_num)
  set m := n % 10 with hmdef
  clear_value m
  interval_cases m <;> decide

theorem digitChar_val (n : Nat) : (digitChar n).toNat = 48 + n % 10 := by
  unfold digitChar
  have hm : n % 10 < 10 := Nat.mod_lt _ (by norm_num)
  set m := n % 10 with hmdef
  clear_value m
  interval_cases m <;> decide

theorem natToStrGo_acc : ∀ fuel n acc,
    natToStrGo fuel n acc = natToStrGo fuel n [] ++ acc := by
  intro fuel
  induction fuel with
  | zero => intro n acc; rfl
  | succ f ih =>
      intro n acc
      unfold natToStrGo
      by_cases h : n < 10
      · simp [h]
      · simp only [if_neg h]
        rw [ih (n / 10) (digitChar (n % 10) :: acc), ih (n / 10) [digitChar (n % 10)]]
        simp

theorem natToStrGo_digits : ∀ fuel n, ((natToStrGo fuel n []).all isDigitC) = true := by
  intro fuel
  induction fuel with
  | zero => intro n; rfl
  | succ f ih =>
      intro n
      unfold natToStrGo
      by_cases h : n < 10
      · simp [h, digitChar_digit]
      · simp only [if_neg h]
        rw [natToStrGo_acc f (n / 10) [digitChar (n % 10)]]
        simp only [List.all_append, Bool.and_eq_true]
        exact ⟨ih (n / 10), by simp [digitChar_digit]⟩

theorem natToStrGo_ne_nil : ∀ fuel n, 0 < fuel → natToStrGo fuel n [] ≠ [] := by
  intro fuel
  cases fuel with
  | zero => intro n h; omega
  | succ f =>
      intro n _
      unfold natToStrGo
      by_cases h : n < 10
      · simp [h]
      · simp only [if_neg h]
        rw [natToStrGo_acc f (n / 10) [digitChar (n % 10)]]
        simp

theorem valDigits_append_one (ds : List Char) (d : Char) :
    valDigits (ds ++ [d]) = 10 * valDigits ds + (d.toNat - 48) := by
  unfold valDigits
  rw [List.foldl_append]
  simp [Nat.mul_comm]

theorem natToStrGo_val : ∀ fuel n, n < 10 ^ fuel →
    valDigits (natToStrGo fuel n []) = n := by
  intro fuel
  induction fuel with
  | zero =>
      intro n h
      simp at h
      subst h
      rfl
  | succ f ih =>
      intro n hn
      unfold natToStrGo
      by_cases h : n < 10
      · simp only [if_pos h]
        unfold valDigits
        simp [digitChar_val]
        omega
      · simp only [if_neg h]
        rw [natToStrGo_acc f (n / 10) [digitChar (n % 10)]]
        rw [valDigits_append_one]
        have hdiv : n / 10 < 10 ^ f := by
          rw [Nat.div_lt_iff_lt_mul (by norm_num)]
          calc n < 10 ^ (f + 1) := hn
          _ = 10 ^ f * 10 := by ring
        rw [ih (n / 10) hdiv]
        rw [digitChar_val]
        omega

theorem n_lt_10_pow (n : Nat) : n < 10 ^ (n + 1) := by
  calc n < 10 ^ n := Nat.lt_pow_self (by norm_num) n
  _ ≤ 10 ^ (n + 1) := Nat.pow_le_pow_right (by norm_num) (Nat.le_succ n)

theorem natToStr_digits (n : Nat) : ((natToStr n).data.all isDigitC) = true :=
  natToStrGo_digits (n + 1) n

theorem natToStr_ne_nil (n : Nat) : (natToStr n).data ≠ [] :=
  natToStrGo_ne_nil (n + 1) n (by omega)

theorem natToStr_val (n : Nat) : valDigits (natToStr n).data = n :=
  natToStrGo_val (n + 1) n (n_lt_10_pow n)

/-! ## Path-normalization lemmas -/

theorem extFromMime_head (mime : String) :
    isDigitC ((extFromMime mime).data.headD ' ') = false := by
  unfold extFromMime
  split_ifs <;> decide

theorem lowerChar_headD (l : List Char) :
    (l.map lowerChar).headD ' ' = lowerChar (l.headD ' ') := by
  cases l <;> rfl

theorem lowerChar_digit (c : Char) (h : isDigitC c = true) : lowerChar c = c := by
  unfold isDigitC at h
  rw [Bool.and_eq_true, decide_eq_true_eq, decide_eq_true_eq] at h
  unfold lowerChar
  rw [if_neg (by
    rw [Bool.and_eq_true, decide_eq_true_eq, decide_eq_true_eq]
    rintro ⟨h1, -⟩
    exact absurd (lt_of_le_of_lt h.2 (by decide : '9' < 'A')) (not_lt.mpr h1))]

theorem lower_head_dot (s t : String) (h : lowerS s = t)
    (ht : t.data.headD ' ' = '.') : isDigitC (s.data.headD ' ') = false := by
  by_cases hd : isDigitC (s.data.headD ' ') = true
  · exfalso
    have h2 : (lowerS s).data.headD ' ' = '.' := by rw [h]; exact ht
    have h3 : (lowerL s.data).headD ' ' = '.' := h2
    rw [lowerL, lowerChar_headD, lowerChar_digit _ hd] at h3
    rw [h3] at hd
    exact absurd hd (by decide)
  · simpa using hd

theorem extFromContentType_head (ct url : String) :
    isDigitC ((extFromContentType ct url).data.headD ' ') = false := by
  unfold extFromContentType
  dsimp only
  split_ifs with h1 h2 h3 h4 h5 h6
  · decide
  · decide
  · decide
  · decide
  · decide
  · simp only [List.contains_cons, List.contains_nil, Bool.or_eq_true,
      beq_iff_eq] at h6
    rcases h6 with h | h | h | h | h | h | h
    · exact lower_head_dot _ _ h (by decide)
    · exact lower_head_dot _ _ h (by decide)
    · exact lower_head_dot _ _ h (by decide)
    · exact lower_head_dot _ _ h (by decide)
    · exact lower_head_dot _ _ h (by decide)
    · exact lower_head_dot _ _ h (by decide)
    · simp at h
  · decide

theorem goodDelta_nil (pfx : String) (c0 : Nat) : goodDelta pfx c0 [] := by
  intro k h
  exact absurd h (by simp)

theorem goodDelta_one (pfx : String) (c0 : Nat) (it : EpubItem) (ext : String)
    (hx : isDigitC (ext.data.headD ' ') = false)
    (hn : it.file_name = "images/" ++ (pfx ++ natToStr c0 ++ ext)) :
    goodDelta pfx c0 [it] := by
  intro k h
  simp only [List.length_cons, List.length_nil, Nat.lt_succ_iff, Nat.le_zero] at h
  subst h
  exact ⟨ext, hx, by simpa using hn⟩

theorem goodDelta_append (pfx : String) (c0 : Nat) (d1 d2 : List EpubItem)
    (h1 : goodDelta pfx c0 d1) (h2 : goodDelta pfx (c0 + d1.length) d2) :
    goodDelta pfx c0 (d1 ++ d2) := by
  intro k h
  rcases Nat.lt_or_ge k d1.length with hk | hk
  · obtain ⟨ext, hx, hn⟩ := h1 k hk
    exact ⟨ext, hx, by
      rw [List.get_append _ hk]
      exact hn⟩
  · have hk2 : k - d1.length < d2.length := by
      have := h
      simp only [List.length_append] at this
      omega
    obtain ⟨ext, hx, hn⟩ := h2 (k - d1.length) hk2
    refine ⟨ext, hx, ?_⟩
    have harr : c0 + d1.length + (k - d1.length) = c0 + k := by omega
    rw [harr] at hn
    rw [← hn]
    congr 1
    rw [List.get_append_right]
    omega

theorem downloadImage_ext (fetch : String → Option (List Nat × String))
    (url : String) (content : List Nat) (ext : String)
    (h : downloadImage fetch url = some (content, ext)) :
    ∃ ct, ext = extFromContentType ct url := by
  unfold downloadImage at h
  rcases hf : fetch url with _ | ⟨c0, ct⟩
  · rw [hf] at h
    cases h
  · rw [hf] at h
    refine ⟨ct, ?_⟩
    cases h
    rfl

/-- The per-`<img>` loop body appends zero or one item, named from the
current counter, and advances counter and used-list in lock step. -/
theorem processImg_names (fetch : String → Option (List Nat × String))
    (pfx : String) (attrs : List (String × String)) (st : EmbedSt) :
    ∃ delta : List EpubItem,
      (processImg fetch pfx attrs st).2 =
        ⟨st.counter + delta.length, st.items ++ delta,
         st.used ++ List.range' st.counter delta.length⟩ ∧
      goodDelta pfx st.counter delta := by
  have hnil : (⟨st.counter + (0:Nat), st.items ++ [],
      st.used ++ List.range' st.counter 0⟩ : EmbedSt) = st := by
    simp
  unfold processImg
  split
  · exact ⟨[], by simp, goodDelta_nil pfx st.counter⟩
  · split
    · exact ⟨[], by simp, goodDelta_nil pfx st.counter⟩
    · split
      · exact ⟨[], by simp, goodDelta_nil pfx st.counter⟩
      · split
        · split
          · exact ⟨[], by simp, goodDelta_nil pfx st.counter⟩
          · split
            · exact ⟨[], by simp, goodDelta_nil pfx st.counter⟩
            · rename_i h1 h2 h3 scrP mimeV payloadV hpe scrD contentV hde
              exact ⟨[⟨"images/" ++ (pfx ++ natToStr st.counter ++ extFromMime mimeV),
                  contentV, mimeV⟩],
                by simp [List.range'_one],
                goodDelta_one _ _ _ (extFromMime mimeV) (extFromMime_head mimeV) rfl⟩
        · rename_i hOpt srcv hfind hneq htiny hnd
          have hsucc : ∀ (content : List Nat) (ext : String),
              isDigitC (ext.data.headD ' ') = false →
              ∃ delta : List EpubItem,
                ((setAttr "src" ("images/" ++ (pfx ++ natToStr st.counter ++ ext)) attrs,
                  (⟨st.counter + 1,
                    st.items ++ [⟨"images/" ++ (pfx ++ natToStr st.counter ++ ext),
                      content, mediaFromExt ext⟩],
                    st.used ++ [st.counter]⟩ : EmbedSt)) :
                    List (String × String) × EmbedSt).2 =
                  ⟨st.counter + delta.length, st.items ++ delta,
                   st.used ++ List.range' st.counter delta.length⟩ ∧
                goodDelta pfx st.counter delta := by
            intro content ext hx
            exact ⟨[⟨"images/" ++ (pfx ++ natToStr st.counter ++ ext),
                content, mediaFromExt ext⟩],
              by simp [List.range'_one],
              goodDelta_one _ _ _ ext hx rfl⟩
          rcases hd0 : downloadImage fetch srcv with _ | ⟨content, ext⟩
          · dsimp only
            by_cases hss : startsWithS srcv "//" = true
            · rw [if_pos hss]
              rcases hd1 : downloadImage fetch ("https:" ++ srcv) with _ | ⟨content, ext⟩
              · exact ⟨[], by simp, goodDelta_nil pfx st.counter⟩
              · obtain ⟨ct, hct⟩ := downloadImage_ext fetch _ _ _ hd1
                exact hsucc content ext (by rw [hct]; exact extFromContentType_head ct _)
            · rw [if_neg hss]
              exact ⟨[], by simp, goodDelta_nil pfx st.counter⟩
          · dsimp only
            obtain ⟨ct, hct⟩ := downloadImage_ext fetch _ _ _ hd0
            exact hsucc content ext (by rw [hct]; exact extFromContentType_head ct _)

theorem range'_append_nat (c l1 l2 : Nat) :
    List.range' c l1 ++ List.range' (c + l1) l2 = List.range' c (l1 + l2) := by
  have := List.range'_append c l1 l2 1
  simpa [Nat.add_comm] using this

theorem embed_compose (pfx : String) (st st1 st2 : EmbedSt)
    (d1 d2 : List EpubItem)
    (h1 : st1 = ⟨st.counter + d1.length, st.items ++ d1,
      st.used ++ List.range' st.counter d1.length⟩)
    (hg1 : goodDelta pfx st.counter d1)
    (h2 : st2 = ⟨st1.counter + d2.length, st1.items ++ d2,
      st1.used ++ List.range' st1.counter d2.length⟩)
    (hg2 : goodDelta pfx st1.counter d2) :
    st2 = ⟨st.counter + (d1 ++ d2).length, st.items ++ (d1 ++ d2),
      st.used ++ List.range' st.counter (d1 ++ d2).length⟩ ∧
    goodDelta pfx st.counter (d1 ++ d2) := by
  subst h1
  subst h2
  constructor
  · simp only [List.length_append, List.append_assoc, Nat.add_assoc]
    rw [range'_append_nat]
  · exact goodDelta_append _ _ _ _ hg1 (by simpa using hg2)

theorem embed_names_aux (fetch : String → Option (List Nat × String))
    (pfx : String) :
    ∀ N : Nat,
      (∀ (doc : Node) (st : EmbedSt), nsize doc ≤ N →
        ∃ delta : List EpubItem,
          (embedNode fetch pfx doc st).2 =
            ⟨st.counter + delta.length, st.items ++ delta,
             st.used ++ List.range' st.counter delta.length⟩ ∧
          goodDelta pfx st.counter delta) ∧
      (∀ (cs : List Node) (st : EmbedSt), nsizeL cs ≤ N →
        ∃ delta : List EpubItem,
          (embedList fetch pfx cs st).2 =
            ⟨st.counter + delta.length, st.items ++ delta,
             st.used ++ List.range' st.counter delta.length⟩ ∧
          goodDelta pfx st.counter delta) := by
  intro N
  induction N using Nat.strong_induction_on with
  | _ N ih =>
    have hnode : ∀ (doc : Node) (st : EmbedSt), nsize doc ≤ N →
        ∃ delta : List EpubItem,
          (embedNode fetch pfx doc st).2 =
            ⟨st.counter + delta.length, st.items ++ delta,
             st.used ++ List.range' st.counter delta.length⟩ ∧
          goodDelta pfx st.counter delta := by
      intro doc st hsz
      cases doc with
      | text s => exact ⟨[], by simp [embedNode], goodDelta_nil pfx st.counter⟩
      | elem t attrs m cs =>
          have hlt : nsizeL cs < N := by
            have h1 : 1 + nsizeL cs ≤ N := by simpa [nsize] using hsz
            omega
          by_cases ht : t = "img"
          · rcases hp : processImg fetch pfx attrs st with ⟨attrs2, st1⟩
            obtain ⟨d1, hd1, hg1⟩ := processImg_names fetch pfx attrs st
            rw [hp] at hd1
            dsimp only at hd1
            rcases hq : embedList fetch pfx cs st1 with ⟨cs2, st2⟩
            obtain ⟨d2, hd2, hg2⟩ := (ih (nsizeL cs) hlt).2 cs st1 le_rfl
            rw [hq] at hd2
            dsimp only at hd2
            have hcomp := embed_compose pfx st st1 st2 d1 d2 hd1 hg1 hd2 hg2
            refine ⟨d1 ++ d2, ?_, hcomp.2⟩
            rw [show (embedNode fetch pfx (.elem t attrs m cs) st).2 = st2 by
              simp only [embedNode, if_pos ht, hp, hq]]
            exact hcomp.1
          · rcases hq : embedList fetch pfx cs st with ⟨cs2, st2⟩
            obtain ⟨d2, hd2, hg2⟩ := (ih (nsizeL cs) hlt).2 cs st le_rfl
            rw [hq] at hd2
            dsimp only at hd2
            refine ⟨d2, ?_, hg2⟩
            rw [show (embedNode fetch pfx (.elem t attrs m cs) st).2 = st2 by
              simp only [embedNode, if_neg ht, hq]]
            exact hd2
    refine ⟨hnode, ?_⟩
    intro cs st hsz
    cases cs with
    | nil => exact ⟨[], by simp [embedList], goodDelta_nil pfx st.counter⟩
    | cons c cs2 =>
        have hc : nsize c ≤ N := by
          have h1 : nsize c + nsizeL cs2 ≤ N := by simpa [nsizeL] using hsz
          omega
        have hcs : nsizeL cs2 < N := by
          have h0 := nsize_pos c
          have h1 : nsize c + nsizeL cs2 ≤ N := by simpa [nsizeL] using hsz
          omega
        rcases hp : embedNode fetch pfx c st with ⟨c2, st1⟩
        obtain ⟨d1, hd1, hg1⟩ := hnode c st hc
        rw [hp] at hd1
        dsimp only at hd1
        rcases hq : embedList fetch pfx cs2 st1 with ⟨cs3, st2⟩
        obtain ⟨d2, hd2, hg2⟩ := (ih (nsizeL cs2) hcs).2 cs2 st1 le_rfl
        rw [hq] at hd2
        dsimp only at hd2
        have hcomp := embed_compose pfx st st1 st2 d1 d2 hd1 hg1 hd2 hg2
        refine ⟨d1 ++ d2, ?_, hcomp.2⟩
        rw [show (embedList fetch pfx (c :: cs2) st).2 = st2 by
          simp only [embedList, hp, hq]]
        exact hcomp.1

/-- One embedder call issues counters `1, 2, ...` in order and names built
from them. -/
theorem embedImagesAndRewrite_names (fetch : String → Option (List Nat × String))
    (pfx : String) (doc : Node) :
    (embedImagesAndRewrite fetch pfx doc).2.2
      = List.range' 1 (embedImagesAndRewrite fetch pfx doc).2.1.length ∧
    goodDelta pfx 1 (embedImagesAndRewrite fetch pfx doc).2.1 := by
  obtain ⟨delta, hd, hg⟩ :=
    ((embed_names_aux fetch pfx (nsize doc)).1) doc ⟨1, [], []⟩ le_rfl
  have h1 : (embedImagesAndRewrite fetch pfx doc).2.1 = delta := by
    unfold embedImagesAndRewrite
    dsimp only
    rw [hd]
    simp
  have h2 : (embedImagesAndRewrite fetch pfx doc).2.2
      = List.range' 1 delta.length := by
    unfold embedImagesAndRewrite
    dsimp only
    rw [hd]
    simp
  rw [h1, h2]
  exact ⟨rfl, by simpa using hg⟩

/-! ## Name-parsing lemmas -/

theorem litM_append : ∀ p r : List Char, litM p (p ++ r) = some r := by
  intro p
  induction p with
  | nil => intro r; rfl
  | cons c cs ih => intro r; simp [litM, ih r]

theorem takeWhile_digits_append (ds rest : List Char)
    (hds : (ds.all isDigitC) = true)
    (hrest : isDigitC (rest.headD ' ') = false) :
    (ds ++ rest).takeWhile isDigitC = ds := by
  induction ds with
  | nil =>
      cases rest with
      | nil => rfl
      | cons r rs =>
          simp only [List.headD_cons] at hrest
          simp [List.takeWhile, hrest]
  | cons d ds ih =>
      simp only [List.all_cons, Bool.and_eq_true] at hds
      simp [List.takeWhile, hds.1, ih hds.2]

theorem parseDigits_append (ds rest : List Char)
    (hne : ds ≠ [])
    (hds : (ds.all isDigitC) = true)
    (hrest : isDigitC (rest.headD ' ') = false) :
    parseDigits (ds ++ rest) = some (ds, rest) := by
  unfold parseDigits
  rw [takeWhile_digits_append ds rest hds hrest]
  rw [if_neg (by simpa using hne)]
  rw [List.drop_left]

/-- A generated asset name parses back into its two counter digit runs and
the extension. -/
theorem parseImgName_mk (i c : Nat) (ext : String)
    (hext : isDigitC (ext.data.headD ' ') = false) :
    parseImgName ("images/" ++ (("img_" ++ natToStr i ++ "_") ++ natToStr c ++ ext))
      = some ((natToStr i).data, (natToStr c).data, ext.data) := by
  have hdata : ("images/" ++ (("img_" ++ natToStr i ++ "_") ++ natToStr c ++ ext)).data
      = "images/img_".data ++ ((natToStr i).data ++
        ('_' :: ((natToStr c).data ++ ext.data))) := by
    simp [String.data_append]
  unfold parseImgName
  rw [hdata, litM_append]
  dsimp only
  rw [parseDigits_append _ _ (natToStr_ne_nil i) (natToStr_digits i) (by rw [List.headD_cons]; decide)]
  dsimp only
  show (match parseDigits ((natToStr c).data ++ ext.data) with
    | none => none
    | some (ds2, r3) => some ((natToStr i).data, ds2, r3)) = _
  rw [parseDigits_append _ _ (natToStr_ne_nil c) (natToStr_digits c) hext]

/-- Two generated names are equal only if file index and counter agree. -/
theorem genName_inj (i c j d : Nat) (ext ext2 : String)
    (hx : isDigitC (ext.data.headD ' ') = false)
    (hx2 : isDigitC (ext2.data.headD ' ') = false)
    (h : "images/" ++ (("img_" ++ natToStr i ++ "_") ++ natToStr c ++ ext)
       = "images/" ++ (("img_" ++ natToStr j ++ "_") ++ natToStr d ++ ext2)) :
    i = j ∧ c = d := by
  have hp := congrArg parseImgName h
  rw [parseImgName_mk i c ext hx, parseImgName_mk j d ext2 hx2] at hp
  rw [Option.some.injEq, Prod.mk.injEq, Prod.mk.injEq] at hp
  obtain ⟨h1, h2, -⟩ := hp
  constructor
  · have := congrArg valDigits h1
    rwa [natToStr_val, natToStr_val] at this
  · have := congrArg valDigits h2
    rwa [natToStr_val, natToStr_val] at this

/-- The names issued by one call (fixed file index) are pairwise distinct. -/
theorem goodDelta_nodup (i c0 : Nat) (delta : List EpubItem)
    (hg : goodDelta ("img_" ++ natToStr i ++ "_") c0 delta) :
    (delta.map EpubItem.file_name).Nodup := by
  rw [List.nodup_iff_injective_get]
  intro ⟨a, ha⟩ ⟨b, hb⟩ hab
  simp only [List.length_map] at ha hb
  rw [List.get_map, List.get_map] at hab
  obtain ⟨exta, hxa, hna⟩ := hg a ha
  obtain ⟨extb, hxb, hnb⟩ := hg b hb
  rw [hna, hnb] at hab
  have := (genName_inj i (c0 + a) i (c0 + b) exta extb hxa hxb hab).2
  have hab2 : a = b := by omega
  simp [hab2]

theorem goodDelta_isGenName (i c0 : Nat) (delta : List EpubItem)
    (hg : goodDelta ("img_" ++ natToStr i ++ "_") c0 delta) :
    ∀ it ∈ delta, isGenName (i + 1) it.file_name := by
  intro it hit
  obtain ⟨⟨k, hk⟩, hkeq⟩ := List.mem_iff_get.mp hit
  obtain ⟨ext, hx, hn⟩ := hg k hk
  refine ⟨i, c0 + k, ext, Nat.lt_succ_self i, hx, ?_⟩
  rw [← hkeq, hn]

theorem processAfter_items (fetch : String → Option (List Nat × String))
    (dt stm : String) (soup : Node) (st : RunSt) :
    (processAfter fetch dt stm soup st).embedItems = st.embedItems ∧
    (processAfter fetch dt stm soup st).counterLog = st.counterLog := by
  unfold processAfter
  constructor
  · rw [(gateStep_fields dt stm soup (coverStep fetch soup st)).2.2.1,
        (coverStep_fields fetch soup st).2.2.1]
  · rw [(gateStep_fields dt stm soup (coverStep fetch soup st)).2.2.2.1,
        (coverStep_fields fetch soup st).2.2.2.1]

/-- Whatever branch `processFile` takes, the resulting state appends
exactly this call's items and logs this call's counters. -/
theorem processFile_state (fetch : String → Option (List Nat × String))
    (tr : Option TrOracle) (i : Nat) (p : Page) (st : RunSt) :
    ∃ st' : RunSt,
      (processFile fetch tr i p st = .ok st' ∨
       processFile fetch tr i p st = .error st') ∧
      st'.embedItems = st.embedItems ++
        (embedImagesAndRewrite fetch ("img_" ++ natToStr i ++ "_")
          (cleanHtmlKeepStructure p.body)).2.1 ∧
      st'.counterLog = st.counterLog ++
        [(embedImagesAndRewrite fetch ("img_" ++ natToStr i ++ "_")
          (cleanHtmlKeepStructure p.body)).2.2] := by
  unfold processFile
  dsimp only
  cases tr with
  | none =>
      refine ⟨_, Or.inl rfl, ?_, ?_⟩
      · exact (processAfter_items _ _ _ _ _).1
      · exact (processAfter_items _ _ _ _ _).2
  | some t =>
      dsimp only
      by_cases hemp : (collectTexts
        (embedImagesAndRewrite fetch ("img_" ++ natToStr i ++ "_")
          (cleanHtmlKeepStructure p.body)).1).isEmpty = true
      · rw [if_pos hemp]
        exact ⟨_, Or.inl rfl, (processAfter_items _ _ _ _ _).1,
          (processAfter_items _ _ _ _ _).2⟩
      · rw [if_neg hemp]
        rcases htr : translateTexts t (collectTexts
          (embedImagesAndRewrite fetch ("img_" ++ natToStr i ++ "_")
            (cleanHtmlKeepStructure p.body)).1) with _ | res
        · exact ⟨_, Or.inr rfl, rfl, rfl⟩
        · exact ⟨_, Or.inl rfl, (processAfter_items _ _ _ _ _).1,
            (processAfter_items _ _ _ _ _).2⟩

/-- Loop invariant: accumulated names stay pairwise distinct and of the
generated shape, and every logged counter list is `1, 2, ..., k`. -/
theorem runLoop_names (fetch : String → Option (List Nat × String))
    (tr : Option TrOracle) :
    ∀ (ps : List Page) (i : Nat) (st : RunSt),
      ((st.embedItems.map EpubItem.file_name).Nodup) →
      (∀ it ∈ st.embedItems, isGenName i it.file_name) →
      (∀ log ∈ st.counterLog, log = List.range' 1 log.length) →
      ((((runLoop fetch tr ps i st).1.embedItems.map EpubItem.file_name).Nodup) ∧
       ∀ log ∈ (runLoop fetch tr ps i st).1.counterLog,
         log = List.range' 1 log.length) := by
  intro ps
  induction ps with
  | nil =>
      intro i st h1 h2 h3
      exact ⟨h1, h3⟩
  | cons p ps ih =>
      intro i st h1 h2 h3
      obtain ⟨st', hbr, hitems, hlog⟩ := processFile_state fetch tr i p st
      have hdn := embedImagesAndRewrite_names fetch ("img_" ++ natToStr i ++ "_")
        (cleanHtmlKeepStructure p.body)
      have h1' : ((st'.embedItems.map EpubItem.file_name).Nodup) := by
        rw [hitems, List.map_append, List.nodup_append]
        refine ⟨h1, goodDelta_nodup i 1 _ hdn.2, ?_⟩
        intro a ha hb
        rw [List.mem_map] at ha hb
        obtain ⟨ita, hita, haeq⟩ := ha
        obtain ⟨itb, hitb, hbeq⟩ := hb
        obtain ⟨j, c, ext, hj, hx, he⟩ := h2 ita hita
        obtain ⟨⟨k, hk⟩, hkeq⟩ := List.mem_iff_get.mp hitb
        obtain ⟨ext2, hx2, hn2⟩ := hdn.2 k hk
        have hnames : "images/" ++ (("img_" ++ natToStr j ++ "_") ++ natToStr c ++ ext)
            = "images/" ++ (("img_" ++ natToStr i ++ "_") ++ natToStr (1 + k) ++ ext2) := by
          rw [← he, ← hn2, hkeq, haeq, hbeq]
        have := (genName_inj j c i (1 + k) ext ext2 hx hx2 hnames).1
        omega
      have h2' : ∀ it ∈ st'.embedItems, isGenName (i + 1) it.file_name := by
        rw [hitems]
        intro it hit
        rcases List.mem_append.mp hit with ho | hn
        · obtain ⟨j, c, ext, hj, hx, he⟩ := h2 it ho
          exact ⟨j, c, ext, by omega, hx, he⟩
        · exact goodDelta_isGenName i 1 _ hdn.2 it hn
      have h3' : ∀ log ∈ st'.counterLog, log = List.range' 1 log.length := by
        rw [hlog]
        intro log hl
        rcases List.mem_append.mp hl with ho | hn
        · exact h3 log ho
        · rw [List.mem_singleton] at hn
          subst hn
          rw [hdn.1]
          simp
      rcases hbr with hok | herr
      · have hres := ih (i + 1) st' h1' h2' h3'
        rw [show runLoop fetch tr (p :: ps) i st = runLoop fetch tr ps (i + 1) st' by
          simp only [runLoop, hok]]
        exact hres
      · rw [show runLoop fetch tr (p :: ps) i st
            = (st', some "translation batch failed after retries") by
          simp only [runLoop, herr]]
        exact ⟨h1', h3'⟩

/-- C3 (amended): within one run every asset name issued by the embedder is
pairwise distinct across all chapters — the per-file `img_<i>_` prefix
prevents collisions — but the embedder's counter is local to each call,
restarting at 1 for every file: each call's consumed counter list is
exactly `1, 2, ..., k`, not a run-global monotonic sequence, so a second
call on the same document reuses counters (and only the changed prefix
separates the names). -/
theorem c3_asset_names_unique (fetch : String → Option (List Nat × String))
    (tr : Option TrOracle) (ep pd : Bool) (files : List Page) :
    (((buildBook fetch tr ep pd files).embedItems.map EpubItem.file_name).Nodup) ∧
    ∀ log ∈ (buildBook fetch tr ep pd files).counterLog,
      log = List.range' 1 log.length := by
  have hbase := runLoop_names fetch tr files 1 initRunSt
    (by simp [initRunSt])
    (by intro it hit; simp [initRunSt] at hit)
    (by intro log hl; simp [initRunSt] at hl)
  unfold buildBook
  split
  · constructor
    · simp
    · intro log hl
      simp at hl
  · rcases hrun : runLoop fetch tr files 1 initRunSt with ⟨st, err⟩
    rw [hrun] at hbase
    cases err with
    | none =>
        dsimp only
        split
        · exact hbase
        · exact hbase
    | some e => exact hbase
